import Mathlib

/-!
# RIBS `vmstorage.h` and `mkdir_recursive.cpp`

A shallow embedding of the page arithmetic (`vmpage::align`), of the two growable
mappings (`vmstorage_mem`, `vmstorage_file`) and of `mkdir_recursive`, together with
a small model of the operating-system interface the code calls.

Conventions (LP64 Linux, the platform the code is written for):

* `off_t` is a signed 64-bit integer, modelled as an `Int` in `[-2^63, 2^63)`;
  an addition that leaves the range (undefined in C++) wraps in two's complement,
  as the compilers for this platform make it (`wrapI64`);
* `size_t` is an unsigned 64-bit integer, modelled as a `Nat` below `2^64`;
* pointers are addresses (`Nat`), `NULL = 0`, `MAP_FAILED = (void *)-1 = 2^64 - 1`;
* every method takes the struct, the state of the world and an `Oracle` that says
  which of the system calls it issues are allowed to succeed, and returns the C
  return value, the new struct and the new world.
-/

namespace Ribs

/-! ## Machine integers -/

/-- Two to the 64th. -/
def TWO64 : Nat := 18446744073709551616

/-- Two to the 63rd. -/
def TWO63 : Nat := 9223372036854775808

/-- Conversion of an integer to `size_t`: its 64-bit two's complement bit pattern. -/
def toU64 (x : Int) : Nat := (x % (TWO64 : Int)).toNat

/-- Conversion of a 64-bit pattern (a `size_t`) to `off_t`. -/
def toI64 (n : Nat) : Int :=
  if n % TWO64 < TWO63 then ((n % TWO64 : Nat) : Int) else ((n % TWO64 : Nat) : Int) - (TWO64 : Int)

/-- Reduction of an integer result into the range of `off_t`. -/
def wrapI64 (x : Int) : Int := toI64 (toU64 x)

/-- Bitwise and of two `off_t` values, computed on the bit patterns. -/
def andI64 (a b : Int) : Int := toI64 (toU64 a &&& toU64 b)

/-- Bitwise complement of a signed integer. -/
def notI64 (a : Int) : Int := -a - 1

/-! ## `struct vmpage` -/

namespace vmpage

/-- The enumerator `PAGEMASK = 4095`. -/
def PAGEMASK : Int := 4095

/-- The enumerator `PAGESIZE`, the successor of `PAGEMASK`. -/
def PAGESIZE : Nat := 4096

/-- The function `vmpage::align(off_t off)`: `off += PAGEMASK; off &= ~PAGEMASK`. -/
def align (off : Int) : Int :=
  let off := wrapI64 (off + PAGEMASK)
  let off := andI64 off (notI64 PAGEMASK)
  off

end vmpage

/-- The call `x = vmpage::align(x)` for a `size_t x`: the argument is converted to
`off_t`, aligned, and the result converted back to `size_t`. -/
def alignSize (n : Nat) : Nat := toU64 (vmpage.align (toI64 n))

/-! ## The operating system

The world holds a file system (directory entries, inodes with their bytes, open
descriptors) and the list of system calls issued so far.  A call succeeds only if
the kernel's documented preconditions hold *and* the oracle lets it succeed, so
every call may fail at any time. -/

/-- The values of `errno` the code distinguishes. -/
inductive Errno where
  | ENOENT
  | EEXIST
  | EOTHER
  deriving DecidableEq, Repr

/-- Protection of a mapping: `PROT_READ`, or `PROT_WRITE | PROT_READ`. -/
inductive Prot where
  | READ
  | READ_WRITE
  deriving DecidableEq, Repr

/-- Kind of a mapping: `MAP_ANONYMOUS | MAP_PRIVATE`, or `MAP_SHARED`. -/
inductive MapFlags where
  | ANON_PRIVATE
  | SHARED
  deriving DecidableEq, Repr

/-- Flags of `open`: `O_RDONLY | O_CLOEXEC`, or `O_CREAT | O_RDWR | O_CLOEXEC`. -/
inductive OpenFlags where
  | RDONLY
  | CREAT_RDWR
  deriving DecidableEq, Repr

/-- A system call with its arguments, as recorded in the log of the world. -/
inductive Call where
  | mmap (len : Nat) (prot : Prot) (flags : MapFlags) (fd : Int)
  | munmap (addr len : Nat)
  | mremap (old_address old_size new_size : Nat)
  | open_ (path : String) (flags : OpenFlags)
  | fstat (fd : Int)
  | ftruncate (fd : Int) (length : Int)
  | close (fd : Int)
  | unlink (path : String)
  | tempfd
  deriving DecidableEq, Repr

/-- State of the world outside the structs. -/
structure World where
  /-- Directory entries: the inode a path names, if any. -/
  names : String → Option Nat
  /-- Bytes of every inode. -/
  inodes : Nat → List Nat
  /-- Open descriptors: the inode and whether it is open for writing. -/
  fds : Int → Option (Nat × Bool)
  /-- Next unused inode number. -/
  nextIno : Nat
  /-- System calls issued so far, oldest first. -/
  log : List Call

/-- Outcomes the environment chooses for the system calls of one method call:
the value a successful `open`, `tempfd::create`, `mmap` or `mremap` returns (a
negative descriptor, `MAP_FAILED` or `NULL` meaning failure) and whether each other
call is allowed to succeed. -/
structure Oracle where
  open_ret : Int
  tempfd_ret : Int
  mmap_ret : Nat
  mremap_ret : Nat
  munmap_ok : Bool
  ftruncate_ok : Bool
  fstat_ok : Bool
  close_ok : Bool
  unlink_ok : Bool

/-- The null pointer. -/
def NULL : Nat := 0

/-- The error value of `mmap` and `mremap`, `(void *)-1`. -/
def MAP_FAILED : Nat := 18446744073709551615

/-- Pointwise update of a table. -/
def upd {α β : Type} [DecidableEq α] (f : α → β) (a : α) (b : β) : α → β :=
  fun k => if k = a then b else f k

/-- Append a call to the log. -/
def World.record (w : World) (c : Call) : World :=
  { w with log := w.log ++ [c] }

/-- Bytes of a file after its length is set to `n`: cut, or extended with zeros. -/
def resizeData (d : List Nat) (n : Nat) : List Nat :=
  d.take n ++ List.replicate (n - d.length) 0

/-- Length of the file behind a descriptor, if the descriptor is open. -/
def fileLen (w : World) (fd : Int) : Option Nat :=
  match w.fds fd with
  | some (ino, _) => some (w.inodes ino).length
  | none => none

/-- The call `mmap(NULL, len, prot, flags, fd, 0)`. Fails for a zero length, for a
descriptor that is not open and for a writable shared mapping of a descriptor
that is not open for writing; otherwise returns what the oracle says. The kernel
never places a mapping at address 0, so an oracle value of `NULL` is a failure. -/
def sys_mmap (w : World) (len : Nat) (prot : Prot) (flags : MapFlags) (fd : Int)
    (r : Nat) : Nat × World :=
  let w := w.record (Call.mmap len prot flags fd)
  if len = 0 ∨ r = NULL then (MAP_FAILED, w)
  else
    match flags with
    | MapFlags.ANON_PRIVATE => (r, w)
    | MapFlags.SHARED =>
      match w.fds fd, prot with
      | none, _ => (MAP_FAILED, w)
      | some (_, false), Prot.READ_WRITE => (MAP_FAILED, w)
      | some _, _ => (r, w)

/-- The call `mremap(old_address, old_size, new_size, MREMAP_MAYMOVE)`. Fails for a
zero new size; otherwise returns what the oracle says. The kernel never places a
mapping at address 0, so an oracle value of `NULL` is a failure. -/
def sys_mremap (w : World) (old_address old_size new_size : Nat) (r : Nat) : Nat × World :=
  let w := w.record (Call.mremap old_address old_size new_size)
  if new_size = 0 ∨ r = NULL then (MAP_FAILED, w) else (r, w)

/-- The call `munmap(addr, len)`. Fails for a zero length or when the oracle says so. -/
def sys_munmap (w : World) (addr len : Nat) (ok : Bool) : Int × World :=
  let w := w.record (Call.munmap addr len)
  if ok = true ∧ len ≠ 0 then (0, w) else (-1, w)

/-- The call `open(path, flags, 0644)`. With `O_CREAT` a missing file is created
empty; without it a missing file is an error. An existing file is opened as it is. -/
def sys_open (w : World) (path : String) (flags : OpenFlags) (r : Int) : Int × World :=
  let w := w.record (Call.open_ path flags)
  if r < 0 then (-1, w)
  else
    match flags, w.names path with
    | OpenFlags.RDONLY, none => (-1, w)
    | OpenFlags.RDONLY, some ino => (r, { w with fds := upd w.fds r (some (ino, false)) })
    | OpenFlags.CREAT_RDWR, some ino => (r, { w with fds := upd w.fds r (some (ino, true)) })
    | OpenFlags.CREAT_RDWR, none =>
      (r, { w with
              names := upd w.names path (some w.nextIno)
              inodes := upd w.inodes w.nextIno []
              fds := upd w.fds r (some (w.nextIno, true))
              nextIno := w.nextIno + 1 })

/-- The call `fstat(fd, &st)`: return value and `st.st_size`. -/
def sys_fstat (w : World) (fd : Int) (ok : Bool) : Int × Int × World :=
  let w := w.record (Call.fstat fd)
  match w.fds fd with
  | some (ino, _) => if ok = true then (0, ((w.inodes ino).length : Int), w) else (-1, 0, w)
  | none => (-1, 0, w)

/-- The call `ftruncate(fd, length)`. Needs a descriptor open for writing and a
non-negative length; sets the length of the file, zero-filling what it adds. -/
def sys_ftruncate (w : World) (fd : Int) (length : Int) (ok : Bool) : Int × World :=
  let w := w.record (Call.ftruncate fd length)
  match w.fds fd with
  | some (ino, true) =>
    if ok = true ∧ 0 ≤ length then
      (0, { w with inodes := upd w.inodes ino (resizeData (w.inodes ino) length.toNat) })
    else (-1, w)
  | _ => (-1, w)

/-- The call `close(fd)`. An open descriptor is released even when the call
reports an error. -/
def sys_close (w : World) (fd : Int) (ok : Bool) : Int × World :=
  let w := w.record (Call.close fd)
  match w.fds fd with
  | some _ => (if ok = true then 0 else -1, { w with fds := upd w.fds fd none })
  | none => (-1, w)

/-- The call `unlink(path)`: return value and `errno` (meaningful after a failure). -/
def sys_unlink (w : World) (path : String) (ok : Bool) : Int × Errno × World :=
  let w := w.record (Call.unlink path)
  if ok = true then
    match w.names path with
    | some _ => (0, Errno.EOTHER, { w with names := upd w.names path none })
    | none => (-1, Errno.ENOENT, w)
  else (-1, Errno.EOTHER, w)

/-- Modelled from the spec: `tempfd::create()` of `tempfd.h`, which is not part of
the sources. It "supplies a fresh, unlinked, writable file descriptor on demand"
and "returns a valid descriptor or a negative/error sentinel". -/
def tempfd.create (w : World) (r : Int) : Int × World :=
  let w := w.record Call.tempfd
  if r < 0 then (r, w)
  else
    (r, { w with
            inodes := upd w.inodes w.nextIno []
            fds := upd w.fds r (some (w.nextIno, true))
            nextIno := w.nextIno + 1 })

/-! ## `struct vmstorage_mem` -/

/-- The fields of `vmstorage_mem`. -/
structure vmstorage_mem where
  buf : Nat
  capacity : Nat
  deriving DecidableEq, Repr

namespace vmstorage_mem

/-- The constructor: `buf(NULL), capacity(0)`. -/
def ctor : vmstorage_mem := { buf := NULL, capacity := 0 }

/-- The method `detach()`. -/
def detach (_s : vmstorage_mem) : vmstorage_mem := { buf := NULL, capacity := 0 }

/-- The method `resize_to(size_t new_capacity)`. -/
def resize_to (s : vmstorage_mem) (w : World) (o : Oracle) (new_capacity : Nat) :
    Int × vmstorage_mem × World :=
  let new_capacity := alignSize new_capacity
  let m := sys_mremap w s.buf s.capacity new_capacity o.mremap_ret
  if m.1 = MAP_FAILED then (-1, s, m.2)
  else (0, { buf := m.1, capacity := new_capacity }, m.2)

/-- The method `init(size_t initial_size)`. -/
def init (s : vmstorage_mem) (w : World) (o : Oracle) (initial_size : Nat) :
    Int × vmstorage_mem × World :=
  if s.buf = NULL then
    let initial_size := alignSize initial_size
    let m := sys_mmap w initial_size Prot.READ_WRITE MapFlags.ANON_PRIVATE (-1) o.mmap_ret
    if m.1 = MAP_FAILED then (-1, { s with buf := NULL }, m.2)
    else (0, { buf := m.1, capacity := initial_size }, m.2)
  else if s.capacity < initial_size then resize_to s w o initial_size
  else (0, s, w)

/-- The method `free()`. -/
def free (s : vmstorage_mem) (w : World) (o : Oracle) : Int × vmstorage_mem × World :=
  if s.buf ≠ NULL then
    let m := sys_munmap w s.buf s.capacity o.munmap_ok
    if m.1 < 0 then (-1, s, m.2)
    else (0, { buf := NULL, capacity := 0 }, m.2)
  else (0, { buf := NULL, capacity := 0 }, w)

/-- The method `free_most()`. -/
def free_most (s : vmstorage_mem) (w : World) (o : Oracle) : Int × vmstorage_mem × World :=
  if s.buf ≠ NULL ∧ s.capacity > vmpage.PAGESIZE then
    let m := sys_munmap w (s.buf + vmpage.PAGESIZE) (s.capacity - vmpage.PAGESIZE) o.munmap_ok
    if m.1 < 0 then (-1, s, m.2)
    else (0, { s with capacity := vmpage.PAGESIZE }, m.2)
  else (0, s, w)

end vmstorage_mem

/-! ## `struct vmstorage_file` -/

/-- The fields of `vmstorage_file`. -/
structure vmstorage_file where
  buf : Nat
  capacity : Nat
  fd : Int
  deriving DecidableEq, Repr

namespace vmstorage_file

/-- The constructor: `buf(NULL), capacity(0), fd(-1)`. -/
def ctor : vmstorage_file := { buf := NULL, capacity := 0, fd := -1 }

/-- The method `detach()`. -/
def detach (_s : vmstorage_file) : vmstorage_file := { buf := NULL, capacity := 0, fd := -1 }

/-- The method `create(int fd, size_t initial_size)`. -/
def create (s : vmstorage_file) (w : World) (o : Oracle) (fd : Int) (initial_size : Nat) :
    Int × vmstorage_file × World :=
  let s := { s with fd := fd }
  let initial_size := alignSize initial_size
  let t := sys_ftruncate w fd (toI64 initial_size) o.ftruncate_ok
  if t.1 < 0 then (-1, s, t.2)
  else
    let m := sys_mmap t.2 initial_size Prot.READ_WRITE MapFlags.SHARED fd o.mmap_ret
    if m.1 = MAP_FAILED then (-1, { s with buf := NULL }, m.2)
    else (0, { s with buf := m.1, capacity := initial_size }, m.2)

/-- The method `init(const char *filename, size_t initial_size, size_t *loc)`;
the third component of the result is `*loc`. -/
def init (s : vmstorage_file) (w : World) (o : Oracle) (filename : String)
    (initial_size : Nat) (loc : Nat) : Int × vmstorage_file × Nat × World :=
  let op := sys_open w filename OpenFlags.CREAT_RDWR o.open_ret
  let s := { s with fd := op.1 }
  if op.1 < 0 then (-1, s, loc, op.2)
  else
    let st := sys_fstat op.2 s.fd o.fstat_ok
    if st.1 < 0 then (-1, s, loc, st.2.2)
    else
      let loc := toU64 st.2.1
      let c := create s st.2.2 o s.fd initial_size
      (c.1, c.2.1, loc, c.2.2)

/-- The method `create_tmp(size_t initial_size)`. -/
def create_tmp (s : vmstorage_file) (w : World) (o : Oracle) (initial_size : Nat) :
    Int × vmstorage_file × World :=
  let t := tempfd.create w o.tempfd_ret
  if t.1 < 0 then (-1, s, t.2)
  else create s t.2 o t.1 initial_size

/-- The method `resize_to(size_t new_capacity)`. -/
def resize_to (s : vmstorage_file) (w : World) (o : Oracle) (new_capacity : Nat) :
    Int × vmstorage_file × World :=
  let new_capacity := alignSize new_capacity
  let t := sys_ftruncate w s.fd (toI64 new_capacity) o.ftruncate_ok
  if t.1 < 0 then (-1, s, t.2)
  else
    let m := sys_mremap t.2 s.buf s.capacity new_capacity o.mremap_ret
    if m.1 = MAP_FAILED then (-1, s, m.2)
    else (0, { s with buf := m.1, capacity := new_capacity }, m.2)

/-- The method `create(const char *filename, size_t initial_size)`. -/
def create_path (s : vmstorage_file) (w : World) (o : Oracle) (filename : String)
    (initial_size : Nat) : Int × vmstorage_file × World :=
  if s.buf = NULL then
    let u := sys_unlink w filename o.unlink_ok
    if u.1 < 0 ∧ u.2.1 ≠ Errno.ENOENT then (-1, s, u.2.2)
    else
      let op := sys_open u.2.2 filename OpenFlags.CREAT_RDWR o.open_ret
      let s := { s with fd := op.1 }
      if op.1 < 0 then (-1, s, op.2)
      else create s op.2 o s.fd initial_size
  else if s.capacity < initial_size then resize_to s w o initial_size
  else (0, s, w)

/-- The method `close()`. -/
def close (s : vmstorage_file) (w : World) (o : Oracle) : vmstorage_file × World :=
  if 0 ≤ s.fd then
    let c := sys_close w s.fd o.close_ok
    ({ s with fd := -1 }, c.2)
  else (s, w)

/-- The method `free()`. -/
def free (s : vmstorage_file) (w : World) (o : Oracle) : Int × vmstorage_file × World :=
  let c := close s w o
  if c.1.buf ≠ NULL then
    let m := sys_munmap c.2 c.1.buf c.1.capacity o.munmap_ok
    if m.1 < 0 then (-1, c.1, m.2)
    else (0, { c.1 with buf := NULL, capacity := 0 }, m.2)
  else (0, { c.1 with buf := NULL, capacity := 0 }, c.2)

/-- The method `load(const char *filename, size_t *loc)`; the third component of
the result is `*loc`. -/
def load (s : vmstorage_file) (w : World) (o : Oracle) (filename : String) (loc : Nat) :
    Int × vmstorage_file × Nat × World :=
  let f := free s w o
  if f.1 < 0 then (-1, f.2.1, loc, f.2.2)
  else
    let op := sys_open f.2.2 filename OpenFlags.RDONLY o.open_ret
    let s := { f.2.1 with fd := op.1 }
    if op.1 < 0 then (-1, s, loc, op.2)
    else
      let st := sys_fstat op.2 s.fd o.fstat_ok
      if st.1 < 0 then (-1, s, loc, st.2.2)
      else
        let len := toU64 st.2.1
        let loc := len
        let len := alignSize len
        let m := sys_mmap st.2.2 len Prot.READ MapFlags.SHARED s.fd o.mmap_ret
        if m.1 = MAP_FAILED then (-1, { s with buf := NULL }, loc, m.2)
        else (0, { s with buf := m.1, capacity := len }, loc, m.2)

/-- The method `free_most()`. -/
def free_most (s : vmstorage_file) (w : World) (o : Oracle) : Int × vmstorage_file × World :=
  if s.buf ≠ NULL ∧ s.capacity > vmpage.PAGESIZE then
    let m := sys_munmap w (s.buf + vmpage.PAGESIZE) (s.capacity - vmpage.PAGESIZE) o.munmap_ok
    if m.1 < 0 then (-1, s, m.2)
    else
      let s := { s with capacity := vmpage.PAGESIZE }
      let t := sys_ftruncate m.2 s.fd (toI64 s.capacity) o.ftruncate_ok
      if t.1 < 0 then (-1, s, t.2)
      else (0, s, t.2)
  else (0, s, w)

/-- The method `truncate(off_t len)`. -/
def truncate (s : vmstorage_file) (w : World) (o : Oracle) (len : Int) :
    Int × vmstorage_file × World :=
  let t := sys_ftruncate w s.fd len o.ftruncate_ok
  if t.1 < 0 then (-1, s, t.2)
  else (0, s, t.2)

end vmstorage_file

/-! ## Reachable states -/

/-- States of a `vmstorage_mem` reachable from the constructor by the public
methods, in any world, with any arguments and any outcome of the system calls. -/
inductive MemReach : vmstorage_mem → Prop where
  | ctor : MemReach vmstorage_mem.ctor
  | detach (s : vmstorage_mem) : MemReach s → MemReach s.detach
  | init (s : vmstorage_mem) (w : World) (o : Oracle) (n : Nat) :
      MemReach s → MemReach (s.init w o n).2.1
  | free (s : vmstorage_mem) (w : World) (o : Oracle) :
      MemReach s → MemReach (s.free w o).2.1
  | free_most (s : vmstorage_mem) (w : World) (o : Oracle) :
      MemReach s → MemReach (s.free_most w o).2.1
  | resize_to (s : vmstorage_mem) (w : World) (o : Oracle) (n : Nat) :
      MemReach s → MemReach (s.resize_to w o n).2.1

/-- States of a `vmstorage_file` reachable from the constructor by the public
methods, in any world, with any arguments and any outcome of the system calls. -/
inductive FileReach : vmstorage_file → Prop where
  | ctor : FileReach vmstorage_file.ctor
  | detach (s : vmstorage_file) : FileReach s → FileReach s.detach
  | init (s : vmstorage_file) (w : World) (o : Oracle) (f : String) (n loc : Nat) :
      FileReach s → FileReach (s.init w o f n loc).2.1
  | create (s : vmstorage_file) (w : World) (o : Oracle) (fd : Int) (n : Nat) :
      FileReach s → FileReach (s.create w o fd n).2.1
  | create_tmp (s : vmstorage_file) (w : World) (o : Oracle) (n : Nat) :
      FileReach s → FileReach (s.create_tmp w o n).2.1
  | create_path (s : vmstorage_file) (w : World) (o : Oracle) (f : String) (n : Nat) :
      FileReach s → FileReach (s.create_path w o f n).2.1
  | load (s : vmstorage_file) (w : World) (o : Oracle) (f : String) (loc : Nat) :
      FileReach s → FileReach (s.load w o f loc).2.1
  | close (s : vmstorage_file) (w : World) (o : Oracle) :
      FileReach s → FileReach (s.close w o).1
  | free (s : vmstorage_file) (w : World) (o : Oracle) :
      FileReach s → FileReach (s.free w o).2.1
  | free_most (s : vmstorage_file) (w : World) (o : Oracle) :
      FileReach s → FileReach (s.free_most w o).2.1
  | resize_to (s : vmstorage_file) (w : World) (o : Oracle) (n : Nat) :
      FileReach s → FileReach (s.resize_to w o n).2.1
  | truncate (s : vmstorage_file) (w : World) (o : Oracle) (len : Int) :
      FileReach s → FileReach (s.truncate w o len).2.1

/-! ## `mkdir_recursive`

The argument `char *file` is a buffer of characters that holds a string ended by
`NUL`; pointers into it are indices. -/

/-- The character that ends a C string. -/
def NUL : Char := Char.ofNat 0

/-- What one `mkdir(path, 0755)` call does: it creates the directory and returns 0,
or fails with `EEXIST` because the name exists already (as a directory or as
anything else), or fails for another reason. -/
inductive MkdirRes where
  | CREATED
  | EXISTS
  | FAILED
  deriving DecidableEq, Repr

/-- The world as `mkdir_recursive` sees it. What a `mkdir` call does is up to the
environment: `outcome k path` is the result of a call on `path` issued after `k`
earlier calls. -/
structure DirWorld where
  /-- Result of a `mkdir` call, by the number of calls before it and its path. -/
  outcome : Nat → List Char → MkdirRes
  /-- Arguments of the `mkdir` calls issued so far, oldest first. -/
  calls : List (List Char)
  /-- Arguments of the calls that created a directory, oldest first. -/
  made : List (List Char)

/-- The call `mkdir(path, 0755)`: return value and `errno` (meaningful after a failure). -/
def sys_mkdir (w : DirWorld) (path : List Char) : Int × Errno × DirWorld :=
  match w.outcome w.calls.length path with
  | MkdirRes.CREATED =>
    (0, Errno.EOTHER, { w with calls := w.calls ++ [path], made := w.made ++ [path] })
  | MkdirRes.EXISTS => (-1, Errno.EEXIST, { w with calls := w.calls ++ [path] })
  | MkdirRes.FAILED => (-1, Errno.EOTHER, { w with calls := w.calls ++ [path] })

/-- The string a buffer holds: its characters up to the first `NUL`. -/
def cstr (b : List Char) : List Char := b.takeWhile (fun x => x != NUL)

/-- Scan of `strrchr`: `i` is the index of the head of the list and `found` the last
occurrence seen so far. -/
def strrchrAux (c : Char) : List Char → Nat → Option Nat → Option Nat
  | [], _, found => found
  | x :: xs, i, found =>
    if x = NUL then found
    else strrchrAux c xs (i + 1) (if x = c then some i else found)

/-- The call `strrchr(b, c)` for a character `c` other than `NUL`: the index of the
last occurrence of `c` in the string, or `none` for a null pointer. -/
def strrchr (b : List Char) (c : Char) : Option Nat := strrchrAux c b 0 none

/-- The call `strchrnul(b + start, c)`: the index of the first occurrence of `c` at
or after `start`, or of the `NUL` that ends the string. -/
def strchrnul (b : List Char) (start : Nat) (c : Char) : Nat :=
  start + ((b.drop start).takeWhile (fun x => x != c && x != NUL)).length

/-- The `while (*cur)` loop of `mkdir_recursive`, run for at most the given number
of iterations. The result says whether the loop ran to its end (`true`) or left
through `return -1` (`false`), and gives the buffer and the world at that point. -/
def mkdir_loop : Nat → DirWorld → List Char → Nat → Option (Bool × List Char × DirWorld)
  | 0, _, _, _ => none
  | fuel + 1, w, file, cur =>
    if file.getD cur NUL = NUL then some (true, file, w)
    else
      let cur := cur + 1
      let p := strchrnul file cur '/'
      let c := file.getD p NUL
      let file := file.set p NUL
      let m := sys_mkdir w (cstr file)
      if m.1 < 0 ∧ m.2.1 ≠ Errno.EEXIST then some (false, file, m.2.2)
      else mkdir_loop fuel m.2.2 (file.set p c) p

/-- The function `mkdir_recursive(char *file)`: return value, final contents of the
buffer and final world. -/
def mkdir_recursive (w : DirWorld) (file : List Char) : Option (Int × List Char × DirWorld) :=
  match strrchr file '/' with
  | none => some (0, file, w)
  | some p =>
    let file := file.set p NUL
    match mkdir_loop (file.length + 1) w file 0 with
    | none => none
    | some (true, file, w) => some (0, file.set p '/', w)
    | some (false, file, w) => some (-1, file, w)

/-- The proper ancestor-directory prefixes of a path, shortest first: the text
before each `/` of the path, except the empty text before a leading `/`. -/
def ancestors (path : List Char) : List (List Char) :=
  ((List.range path.length).filter (fun i => decide (0 < i) && (path.getD i NUL == '/'))).map
    (fun i => path.take i)

/-- The paths of a list up to and including the first one on which `mkdir` fails
for a reason other than `EEXIST`, when the first call is the one after `k` calls. -/
def uptoFail (outcome : Nat → List Char → MkdirRes) : Nat → List (List Char) → List (List Char)
  | _, [] => []
  | k, d :: ds =>
    if outcome k d = MkdirRes.FAILED then [d] else d :: uptoFail outcome (k + 1) ds

/-- The paths of a list on which `mkdir` creates a directory, when the first call
is the one after `k` calls. -/
def createdBy (outcome : Nat → List Char → MkdirRes) : Nat → List (List Char) → List (List Char)
  | _, [] => []
  | k, d :: ds =>
    if outcome k d = MkdirRes.CREATED then d :: createdBy outcome (k + 1) ds
    else createdBy outcome (k + 1) ds

/-- Issue `mkdir` on the paths of a list in order, stopping after the first call
that fails for a reason other than `EEXIST`; says whether all calls went through. -/
def runCalls (w : DirWorld) : List (List Char) → Bool × DirWorld
  | [] => (true, w)
  | d :: ds =>
    if (sys_mkdir w d).1 < 0 ∧ (sys_mkdir w d).2.1 ≠ Errno.EEXIST then (false, (sys_mkdir w d).2.2)
    else runCalls (sys_mkdir w d).2.2 ds

/-- The prefixes before each `/` of `rest`, where `acc` is the text already
passed; an empty `acc` is skipped. -/
def ancAux (acc : List Char) : List Char → List (List Char)
  | [] => []
  | c :: rest =>
    if c = '/' ∧ acc ≠ [] then acc :: ancAux (acc ++ [c]) rest
    else ancAux (acc ++ [c]) rest

/-- The arguments of the `mkdir` calls the loop issues when `cur` stands at the
head of `rem`, the text before it being `acc` and the text `rem` being followed by
the terminator: the text up to each `/` after the head, and the whole text. -/
def loopCalls (acc : List Char) : List Char → List (List Char)
  | [] => []
  | x :: more => ancAux (acc ++ [x]) (more ++ ['/'])

/-! ## Concrete worlds and oracles for the examples -/

/-- A world without files, open descriptors or calls. -/
def World.empty : World :=
  { names := fun _ => none, inodes := fun _ => [], fds := fun _ => none, nextIno := 0, log := [] }

/-- The oracle that lets every call succeed: descriptors are 3, `mmap` returns
`0x10000` and `mremap` returns `0x20000`. -/
def Oracle.allow : Oracle :=
  { open_ret := 3, tempfd_ret := 3, mmap_ret := 65536, mremap_ret := 131072,
    munmap_ok := true, ftruncate_ok := true, fstat_ok := true, close_ok := true,
    unlink_ok := true }

/-- The oracle that lets every call succeed except `munmap`. -/
def Oracle.munmapFails : Oracle := { Oracle.allow with munmap_ok := false }

namespace Roundtrip

end Roundtrip

/-- A world in which the path `"g"` names a file of three bytes and `"d"` names a
file of ten bytes; no descriptor is open. -/
def World.sample : World :=
  { names := upd (upd (fun _ => none) "g" (some 0)) "d" (some 1)
    inodes := upd (upd (fun _ => []) 0 [1, 2, 3]) 1 [1, 2, 3, 4, 5, 6, 7, 8, 9, 10]
    fds := fun _ => none
    nextIno := 2
    log := [] }

/-! # Theorems -/

/-! ## Page arithmetic -/

theorem land_mask (u : Nat) (hu : u < 2 ^ 64) :
    u &&& 18446744073709547520 = u / 4096 * 4096 := by
  have hm : (18446744073709547520 : Nat) = (2 ^ 52 - 1) <<< 12 := by decide
  have hd : u / 4096 * 4096 = (u >>> 12) <<< 12 := by
    rw [Nat.shiftLeft_eq, Nat.shiftRight_eq_div_pow]
  rw [hm, hd]
  apply Nat.eq_of_testBit_eq
  intro i
  simp only [Nat.testBit_and, Nat.testBit_shiftLeft, Nat.testBit_shiftRight,
    Nat.testBit_two_pow_sub_one]
  by_cases h12 : 12 ≤ i
  · have e : 12 + (i - 12) = i := by omega
    by_cases h64 : i < 64
    · have : i - 12 < 52 := by omega
      simp [h12, this, e]
    · have hi : u.testBit i = false := by
        apply Nat.testBit_lt_two_pow
        calc u < 2 ^ 64 := hu
          _ ≤ 2 ^ i := Nat.pow_le_pow_right (by decide) (by omega)
      simp [hi, e]
  · simp [h12]

theorem toU64_lt (x : Int) : toU64 x < 2 ^ 64 := by
  unfold toU64 TWO64
  omega

theorem align_eq (off : Int) :
    vmpage.align off = toI64 (toU64 (off + 4095) / 4096 * 4096) := by
  unfold vmpage.align andI64 notI64 vmpage.PAGEMASK wrapI64
  have h1 : toU64 (toI64 (toU64 (off + 4095))) = toU64 (off + 4095) := by
    have := toU64_lt (off + 4095)
    unfold toI64 toU64 TWO64 TWO63 at *
    split <;> omega
  have h2 : toU64 (-4095 - 1) = 18446744073709547520 := by decide
  simp only [h1, h2]
  rw [land_mask _ (toU64_lt _)]

theorem align_small (s : Int) (h0 : 0 ≤ s) (h1 : s ≤ 9223372036854771712) :
    vmpage.align s = (s + 4095) / 4096 * 4096 := by
  rw [align_eq]
  unfold toU64 toI64 TWO64 TWO63
  split <;> omega

theorem alignSize_eq (n : Nat) (h : n < 18446744073709551616) :
    alignSize n = ((n + 4095) / 4096 * 4096) % 18446744073709551616 := by
  unfold alignSize
  rw [align_eq]
  unfold toU64 toI64 TWO64 TWO63
  split <;> split <;> omega

theorem alignSize_dvd (n : Nat) : 4096 ∣ alignSize n := by
  unfold alignSize
  rw [align_eq]
  have := toU64_lt (toI64 n + 4095)
  unfold toU64 toI64 TWO64 TWO63 at *
  split <;> split <;> omega

theorem alignSize_lt (n : Nat) : alignSize n < 18446744073709551616 := by
  unfold alignSize
  have := toU64_lt (vmpage.align (toI64 n))
  omega

/-- When the aligned size is not zero it is the least page multiple above the argument -/
theorem alignSize_ge (n : Nat) (h : n < 18446744073709551616) (h0 : alignSize n ≠ 0) :
    n ≤ alignSize n ∧ alignSize n < n + 4096 := by
  rw [alignSize_eq n h] at *
  omega

/-- C1 (amended): for every `off_t` value `s` with `0 ≤ s ≤ 2^63 - 4096` (so that
`s + 4095` does not overflow), `vmpage::align(s)` is the smallest multiple of 4096
that is `≥ s`; and `align(0)=0`, `align(1)=4096`, `align(4096)=4096`,
`align(4097)=8192`. -/
theorem align_least_page_multiple (s : Int) (h0 : 0 ≤ s) (h1 : s ≤ 9223372036854771712) :
    ((4096 : Int) ∣ vmpage.align s ∧ s ≤ vmpage.align s ∧
      ∀ m : Int, (4096 : Int) ∣ m → s ≤ m → vmpage.align s ≤ m) ∧
    vmpage.align 0 = 0 ∧ vmpage.align 1 = 4096 ∧ vmpage.align 4096 = 4096 ∧
    vmpage.align 4097 = 8192 := by
  refine ⟨?_, by decide, by decide, by decide, by decide⟩
  rw [align_small s h0 h1]
  refine ⟨?_, ?_, ?_⟩
  · omega
  · omega
  · intro m hm hs
    omega

/-- Witness of C1 at `s = 4097`. -/
theorem align_least_page_multiple_witness :
    ((4096 : Int) ∣ vmpage.align 4097 ∧ (4097 : Int) ≤ vmpage.align 4097 ∧
      ∀ m : Int, (4096 : Int) ∣ m → 4097 ≤ m → vmpage.align 4097 ≤ m) ∧
    vmpage.align 0 = 0 ∧ vmpage.align 1 = 4096 ∧ vmpage.align 4096 = 4096 ∧
    vmpage.align 4097 = 8192 :=
  align_least_page_multiple 4097 (by decide) (by decide)

/-- C1 as stated fails at the non-negative `off_t` value `2^63 - 1`: the addition
overflows, `align` returns `-2^63`, which is below the argument; and no `off_t`
value at all is a multiple of 4096 at or above `2^63 - 1`. -/
theorem align_overflow_counterexample :
    (0 : Int) ≤ 9223372036854775807 ∧ (9223372036854775807 : Int) < (TWO63 : Int) ∧
    vmpage.align 9223372036854775807 = -9223372036854775808 ∧
    ¬ ((9223372036854775807 : Int) ≤ vmpage.align 9223372036854775807) ∧
    ¬ ∃ r : Int, r < (TWO63 : Int) ∧ (4096 : Int) ∣ r ∧ 9223372036854775807 ≤ r := by
  refine ⟨by decide, by decide, by decide, by decide, ?_⟩
  rintro ⟨r, h1, h2, h3⟩
  unfold TWO63 at h1
  omega

/-! ## The capacity invariant -/

theorem mem_step_capacity (s : vmstorage_mem) (w : World) (o : Oracle) (n : Nat)
    (h : 4096 ∣ s.capacity) :
    4096 ∣ (s.init w o n).2.1.capacity ∧ 4096 ∣ (s.free w o).2.1.capacity ∧
    4096 ∣ (s.free_most w o).2.1.capacity ∧ 4096 ∣ (s.resize_to w o n).2.1.capacity := by
  have ha := alignSize_dvd n
  have hr : 4096 ∣ (s.resize_to w o n).2.1.capacity := by
    unfold vmstorage_mem.resize_to
    simp only
    split <;> simp [h, ha]
  refine ⟨?_, ?_, ?_, hr⟩
  · unfold vmstorage_mem.init
    simp only
    split
    · split <;> simp [h, ha]
    · split
      · exact hr
      · exact h
  · unfold vmstorage_mem.free
    simp only
    split
    · split <;> simp [h]
    · simp
  · unfold vmstorage_mem.free_most
    simp only
    split
    · split <;> simp [h, vmpage.PAGESIZE]
    · exact h

theorem mem_reach_capacity (s : vmstorage_mem) (h : MemReach s) : 4096 ∣ s.capacity := by
  induction h with
  | ctor => simp [vmstorage_mem.ctor]
  | detach s _ _ => simp [vmstorage_mem.detach]
  | init s w o n _ ih => exact (mem_step_capacity s w o n ih).1
  | free s w o _ ih => exact (mem_step_capacity s w o 0 ih).2.1
  | free_most s w o _ ih => exact (mem_step_capacity s w o 0 ih).2.2.1
  | resize_to s w o n _ ih => exact (mem_step_capacity s w o n ih).2.2.2

theorem file_create_capacity (s : vmstorage_file) (w : World) (o : Oracle) (fd : Int) (n : Nat)
    (h : 4096 ∣ s.capacity) : 4096 ∣ (s.create w o fd n).2.1.capacity := by
  have ha := alignSize_dvd n
  unfold vmstorage_file.create
  simp only
  split
  · exact h
  · split <;> simp [h, ha]

theorem file_resize_capacity (s : vmstorage_file) (w : World) (o : Oracle) (n : Nat)
    (h : 4096 ∣ s.capacity) : 4096 ∣ (s.resize_to w o n).2.1.capacity := by
  have ha := alignSize_dvd n
  unfold vmstorage_file.resize_to
  simp only
  split
  · exact h
  · split <;> simp [h, ha]

theorem file_close_capacity (s : vmstorage_file) (w : World) (o : Oracle) :
    (s.close w o).1.capacity = s.capacity ∧ (s.close w o).1.buf = s.buf := by
  unfold vmstorage_file.close
  split <;> simp

theorem file_free_capacity (s : vmstorage_file) (w : World) (o : Oracle)
    (h : 4096 ∣ s.capacity) : 4096 ∣ (s.free w o).2.1.capacity := by
  unfold vmstorage_file.free
  simp only
  split
  · split
    · rw [(file_close_capacity s w o).1]; exact h
    · simp
  · simp

theorem file_reach_capacity (s : vmstorage_file) (h : FileReach s) : 4096 ∣ s.capacity := by
  induction h with
  | ctor => simp [vmstorage_file.ctor]
  | detach s _ _ => simp [vmstorage_file.detach]
  | init s w o f n loc _ ih =>
    unfold vmstorage_file.init
    simp only
    split
    · exact ih
    · split
      · exact ih
      · exact file_create_capacity _ _ _ _ _ ih
  | create s w o fd n _ ih => exact file_create_capacity s w o fd n ih
  | create_tmp s w o n _ ih =>
    unfold vmstorage_file.create_tmp
    simp only
    split
    · exact ih
    · exact file_create_capacity _ _ _ _ _ ih
  | create_path s w o f n _ ih =>
    unfold vmstorage_file.create_path
    simp only
    split
    · split
      · exact ih
      · split
        · exact ih
        · exact file_create_capacity _ _ _ _ _ ih
    · split
      · exact file_resize_capacity s w o n ih
      · exact ih
  | load s w o f loc _ ih =>
    have hf := file_free_capacity s w o ih
    unfold vmstorage_file.load
    simp only
    split
    · exact hf
    · split
      · exact hf
      · split
        · exact hf
        · split
          · exact hf
          · exact alignSize_dvd _
  | close s w o _ ih => rw [(file_close_capacity s w o).1]; exact ih
  | free s w o _ ih => exact file_free_capacity s w o ih
  | free_most s w o _ ih =>
    unfold vmstorage_file.free_most
    simp only
    split
    · split
      · exact ih
      · split <;> simp [vmpage.PAGESIZE]
    · exact ih
  | resize_to s w o n _ ih => exact file_resize_capacity s w o n ih
  | truncate s w o len _ ih =>
    unfold vmstorage_file.truncate
    simp only
    split <;> exact ih

theorem zero_or_positive_multiple (c : Nat) (h : 4096 ∣ c) : c = 0 ∨ (0 < c ∧ 4096 ∣ c) := by
  rcases Nat.eq_zero_or_pos c with h0 | h0
  · exact Or.inl h0
  · exact Or.inr ⟨h0, h⟩

/-- C2: in every state of a `vmstorage_mem` or `vmstorage_file` reachable from the
constructor by the public methods, with any arguments, in any world and with any
outcome of the system calls, `capacity` is 0 or a positive multiple of 4096. -/
theorem capacity_zero_or_page_multiple :
    (∀ s : vmstorage_mem, MemReach s → s.capacity = 0 ∨ (0 < s.capacity ∧ 4096 ∣ s.capacity)) ∧
    (∀ s : vmstorage_file, FileReach s →
      s.capacity = 0 ∨ (0 < s.capacity ∧ 4096 ∣ s.capacity)) :=
  ⟨fun s h => zero_or_positive_multiple _ (mem_reach_capacity s h),
   fun s h => zero_or_positive_multiple _ (file_reach_capacity s h)⟩

/-- Witness of C2: the states after `init(5)` on a fresh `vmstorage_mem` and after
`create("f", 5)` on a fresh `vmstorage_file`. -/
theorem capacity_zero_or_page_multiple_witness :
    ((vmstorage_mem.ctor.init World.empty Oracle.allow 5).2.1.capacity = 0 ∨
      (0 < (vmstorage_mem.ctor.init World.empty Oracle.allow 5).2.1.capacity ∧
        4096 ∣ (vmstorage_mem.ctor.init World.empty Oracle.allow 5).2.1.capacity)) ∧
    ((vmstorage_file.ctor.create_path World.empty Oracle.allow "f" 5).2.1.capacity = 0 ∨
      (0 < (vmstorage_file.ctor.create_path World.empty Oracle.allow "f" 5).2.1.capacity ∧
        4096 ∣ (vmstorage_file.ctor.create_path World.empty Oracle.allow "f" 5).2.1.capacity)) :=
  ⟨capacity_zero_or_page_multiple.1 _ (MemReach.init _ _ _ _ MemReach.ctor),
   capacity_zero_or_page_multiple.2 _ (FileReach.create_path _ _ _ _ _ FileReach.ctor)⟩

/-! ## `free` -/

theorem sys_munmap_ret (w : World) (a l : Nat) (ok : Bool) :
    (sys_munmap w a l ok).1 = 0 ∨ (sys_munmap w a l ok).1 = -1 := by
  unfold sys_munmap
  simp only
  split <;> simp

/-- C3 (amended): `free()` leaves the struct unallocated (`buf == NULL`,
`capacity == 0`) exactly when it returns 0, which it does when `buf` was `NULL` or
`munmap` succeeded; when `munmap` fails, `free()` returns -1 and leaves `buf` and
`capacity` as they were. For `vmstorage_file` the descriptor has been closed in both
cases: `fd` is -1 if it was non-negative and is unchanged (negative) otherwise. -/
theorem free_clears_unless_munmap_fails (m : vmstorage_mem) (f : vmstorage_file) (w : World)
    (o : Oracle) :
    (((m.free w o).1 = 0 ∧ (m.free w o).2.1 = { buf := NULL, capacity := 0 } ∧
        (m.buf = NULL ∨ (sys_munmap w m.buf m.capacity o.munmap_ok).1 = 0)) ∨
     ((m.free w o).1 = -1 ∧ (m.free w o).2.1 = m ∧
        m.buf ≠ NULL ∧ (sys_munmap w m.buf m.capacity o.munmap_ok).1 = -1)) ∧
    (((f.free w o).1 = 0 ∧
        (f.free w o).2.1 = { buf := NULL, capacity := 0, fd := if 0 ≤ f.fd then -1 else f.fd } ∧
        (f.buf = NULL ∨ (sys_munmap (f.close w o).2 f.buf f.capacity o.munmap_ok).1 = 0)) ∨
     ((f.free w o).1 = -1 ∧
        (f.free w o).2.1 =
          { buf := f.buf, capacity := f.capacity, fd := if 0 ≤ f.fd then -1 else f.fd } ∧
        f.buf ≠ NULL ∧ (sys_munmap (f.close w o).2 f.buf f.capacity o.munmap_ok).1 = -1)) := by
  constructor
  · unfold vmstorage_mem.free
    simp only
    by_cases hb : m.buf = NULL
    · simp [hb]
    · rcases sys_munmap_ret w m.buf m.capacity o.munmap_ok with h | h
      · simp [hb, h]
      · simp [hb, h]
  · have hc : (f.close w o).1 =
        { buf := f.buf, capacity := f.capacity, fd := if 0 ≤ f.fd then -1 else f.fd } := by
      unfold vmstorage_file.close
      split <;> simp_all
    unfold vmstorage_file.free
    simp only [hc]
    by_cases hb : f.buf = NULL
    · simp [hb]
    · rcases sys_munmap_ret (f.close w o).2 f.buf f.capacity o.munmap_ok with h | h
      · simp [hb, h]
      · simp [hb, h]

/-- C3 as stated fails: after `init(4096)` on a fresh `vmstorage_mem`, and after
`create("f", 4096)` on a fresh `vmstorage_file`, a `free()` whose `munmap` fails
returns -1 and leaves `buf` and `capacity` set. -/
theorem free_munmap_failure_counterexample :
    ((vmstorage_mem.ctor.init World.empty Oracle.allow 4096).2.1.free
        (vmstorage_mem.ctor.init World.empty Oracle.allow 4096).2.2 Oracle.munmapFails).1 = -1 ∧
    ((vmstorage_mem.ctor.init World.empty Oracle.allow 4096).2.1.free
        (vmstorage_mem.ctor.init World.empty Oracle.allow 4096).2.2 Oracle.munmapFails).2.1 = { buf := 65536, capacity := 4096 } ∧
    ((vmstorage_file.ctor.create_path World.empty Oracle.allow "f" 4096).2.1.free
        (vmstorage_file.ctor.create_path World.empty Oracle.allow "f" 4096).2.2
        Oracle.munmapFails).1 = -1 ∧
    ((vmstorage_file.ctor.create_path World.empty Oracle.allow "f" 4096).2.1.free
        (vmstorage_file.ctor.create_path World.empty Oracle.allow "f" 4096).2.2
        Oracle.munmapFails).2.1 = { buf := 65536, capacity := 4096, fd := -1 } := by
  refine ⟨by decide, by decide, by decide, by decide⟩

/-! ## `vmstorage_mem::init` and `resize_to` -/

theorem sys_mmap_len (w : World) (len : Nat) (prot : Prot) (flags : MapFlags) (fd : Int)
    (r : Nat) (h : (sys_mmap w len prot flags fd r).1 ≠ MAP_FAILED) : len ≠ 0 := by
  intro h0
  apply h
  unfold sys_mmap
  simp [h0]

theorem sys_mremap_len (w : World) (a old new r : Nat)
    (h : (sys_mremap w a old new r).1 ≠ MAP_FAILED) : new ≠ 0 := by
  intro h0
  apply h
  unfold sys_mremap
  simp [h0]

theorem mem_resize_to_spec (m : vmstorage_mem) (w : World) (o : Oracle) (n : Nat)
    (hn : n < 18446744073709551616) :
    ((m.resize_to w o n).1 = -1 ∧ (m.resize_to w o n).2.1 = m) ∨
    ((m.resize_to w o n).1 = 0 ∧
      (m.resize_to w o n).2.1.capacity = alignSize n ∧ n ≤ alignSize n ∧
      alignSize n < n + 4096 ∧ 4096 ∣ alignSize n ∧
      (m.resize_to w o n).2.1.buf =
        (sys_mremap w m.buf m.capacity (alignSize n) o.mremap_ret).1) := by
  unfold vmstorage_mem.resize_to
  simp only
  by_cases h : (sys_mremap w m.buf m.capacity (alignSize n) o.mremap_ret).1 = MAP_FAILED
  · simp [h]
  · have h0 := sys_mremap_len _ _ _ _ _ h
    have hg := alignSize_ge n hn h0
    simp [h, hg.1, hg.2, alignSize_dvd n]

/-- C4: for `vmstorage_mem::init(initial_size)` on a reachable struct: (a) when it
returns 0, `capacity` is a multiple of 4096 and `≥ initial_size`; (b) when the
struct is allocated with `capacity ≥ initial_size`, it issues no system call and
leaves the struct as it is; (c) when the struct is allocated with
`capacity < initial_size`, its result and final state are those of
`resize_to(initial_size)`; (d) when the struct is unallocated and `mmap` fails, it
returns -1 and the struct is still unallocated. -/
theorem mem_init_contract (s : vmstorage_mem) (w : World) (o : Oracle) (n : Nat)
    (hn : n < 18446744073709551616) (hs : MemReach s) :
    ((s.init w o n).1 = 0 →
      4096 ∣ (s.init w o n).2.1.capacity ∧ n ≤ (s.init w o n).2.1.capacity) ∧
    (s.buf ≠ NULL → n ≤ s.capacity → s.init w o n = (0, s, w)) ∧
    (s.buf ≠ NULL → s.capacity < n → s.init w o n = s.resize_to w o n) ∧
    (s.buf = NULL → s.capacity = 0 →
      (sys_mmap w (alignSize n) Prot.READ_WRITE MapFlags.ANON_PRIVATE (-1) o.mmap_ret).1
        = MAP_FAILED →
      (s.init w o n).1 = -1 ∧ (s.init w o n).2.1 = { buf := NULL, capacity := 0 }) := by
  refine ⟨?_, ?_, ?_, ?_⟩
  · unfold vmstorage_mem.init
    simp only
    by_cases hb : s.buf = NULL
    · simp only [hb, if_true]
      by_cases h : (sys_mmap w (alignSize n) Prot.READ_WRITE MapFlags.ANON_PRIVATE (-1)
          o.mmap_ret).1 = MAP_FAILED
      · simp [h]
      · have h0 := sys_mmap_len _ _ _ _ _ _ h
        have hg := alignSize_ge n hn h0
        simp [h, hg.1, alignSize_dvd n]
    · simp only [hb, if_false]
      by_cases hc : s.capacity < n
      · simp only [hc, if_true]
        rcases mem_resize_to_spec s w o n hn with h | h
        · intro h0
          rw [h.1] at h0
          exact absurd h0 (by decide)
        · intro _
          rw [h.2.1]
          exact ⟨h.2.2.2.2.1, h.2.2.1⟩
      · simp only [hc, if_false]
        intro _
        exact ⟨mem_reach_capacity s hs, by omega⟩
  · intro hb hc
    unfold vmstorage_mem.init
    have : ¬ s.capacity < n := by omega
    simp [hb, this]
  · intro hb hc
    unfold vmstorage_mem.init
    simp [hb, hc]
  · intro hb hc hm
    unfold vmstorage_mem.init
    simp [hb, hm, hc]

/-- Witness of C4: `init(5)` on a freshly constructed struct. -/
theorem mem_init_contract_witness :
    ((vmstorage_mem.ctor.init World.empty Oracle.allow 5).1 = 0 →
      4096 ∣ (vmstorage_mem.ctor.init World.empty Oracle.allow 5).2.1.capacity ∧
      5 ≤ (vmstorage_mem.ctor.init World.empty Oracle.allow 5).2.1.capacity) ∧
    (vmstorage_mem.ctor.buf ≠ NULL → 5 ≤ vmstorage_mem.ctor.capacity →
      vmstorage_mem.ctor.init World.empty Oracle.allow 5 = (0, vmstorage_mem.ctor, World.empty)) ∧
    (vmstorage_mem.ctor.buf ≠ NULL → vmstorage_mem.ctor.capacity < 5 →
      vmstorage_mem.ctor.init World.empty Oracle.allow 5 =
        vmstorage_mem.ctor.resize_to World.empty Oracle.allow 5) ∧
    (vmstorage_mem.ctor.buf = NULL → vmstorage_mem.ctor.capacity = 0 →
      (sys_mmap World.empty (alignSize 5) Prot.READ_WRITE MapFlags.ANON_PRIVATE (-1)
        Oracle.allow.mmap_ret).1 = MAP_FAILED →
      (vmstorage_mem.ctor.init World.empty Oracle.allow 5).1 = -1 ∧
      (vmstorage_mem.ctor.init World.empty Oracle.allow 5).2.1 = { buf := NULL, capacity := 0 }) :=
  mem_init_contract vmstorage_mem.ctor World.empty Oracle.allow 5 (by decide) MemReach.ctor

theorem sys_ftruncate_fail (w : World) (fd : Int) (len : Int) (ok : Bool)
    (h : (sys_ftruncate w fd len ok).1 < 0) :
    (sys_ftruncate w fd len ok).2 = w.record (Call.ftruncate fd len) := by
  unfold sys_ftruncate at *
  simp only at *
  split
  · split
    · rename_i h1 h2
      simp [h1, h2] at h
    · rfl
  · rfl

theorem file_resize_to_spec (f : vmstorage_file) (w : World) (o : Oracle) (n : Nat)
    (hn : n < 18446744073709551616) :
    ((f.resize_to w o n).1 = -1 ∧ (f.resize_to w o n).2.1 = f) ∨
    ((f.resize_to w o n).1 = 0 ∧
      (f.resize_to w o n).2.1.capacity = alignSize n ∧ n ≤ alignSize n ∧
      alignSize n < n + 4096 ∧ 4096 ∣ alignSize n ∧
      (f.resize_to w o n).2.1.fd = f.fd ∧
      (f.resize_to w o n).2.1.buf =
        (sys_mremap (sys_ftruncate w f.fd (toI64 (alignSize n)) o.ftruncate_ok).2
          f.buf f.capacity (alignSize n) o.mremap_ret).1) := by
  unfold vmstorage_file.resize_to
  simp only
  by_cases ht : (sys_ftruncate w f.fd (toI64 (alignSize n)) o.ftruncate_ok).1 < 0
  · simp [ht]
  · by_cases h : (sys_mremap (sys_ftruncate w f.fd (toI64 (alignSize n)) o.ftruncate_ok).2
        f.buf f.capacity (alignSize n) o.mremap_ret).1 = MAP_FAILED
    · simp [ht, h]
    · have h0 := sys_mremap_len _ _ _ _ _ h
      have hg := alignSize_ge n hn h0
      simp [ht, h, hg.1, hg.2, alignSize_dvd n]

/-- C5: `resize_to(new_capacity)` of either variant returns 0 or -1. When it
returns -1 the struct is exactly as before; for `vmstorage_file`, when the
`ftruncate` step fails, that call is the only one issued (no `mremap`) and the
files are unchanged. When it returns 0, `capacity` is `align(new_capacity)`, the
least multiple of 4096 that is `≥ new_capacity`, and `buf` is the address `mremap`
returned. -/
theorem resize_to_atomic (m : vmstorage_mem) (f : vmstorage_file) (w : World) (o : Oracle)
    (n : Nat) (hn : n < 18446744073709551616) :
    (((m.resize_to w o n).1 = -1 ∧ (m.resize_to w o n).2.1 = m) ∨
     ((m.resize_to w o n).1 = 0 ∧
       (m.resize_to w o n).2.1.capacity = alignSize n ∧ n ≤ alignSize n ∧
       alignSize n < n + 4096 ∧ 4096 ∣ alignSize n ∧
       (m.resize_to w o n).2.1.buf =
         (sys_mremap w m.buf m.capacity (alignSize n) o.mremap_ret).1)) ∧
    (((f.resize_to w o n).1 = -1 ∧ (f.resize_to w o n).2.1 = f) ∨
     ((f.resize_to w o n).1 = 0 ∧
       (f.resize_to w o n).2.1.capacity = alignSize n ∧ n ≤ alignSize n ∧
       alignSize n < n + 4096 ∧ 4096 ∣ alignSize n ∧
       (f.resize_to w o n).2.1.fd = f.fd ∧
       (f.resize_to w o n).2.1.buf =
         (sys_mremap (sys_ftruncate w f.fd (toI64 (alignSize n)) o.ftruncate_ok).2
           f.buf f.capacity (alignSize n) o.mremap_ret).1)) ∧
    ((sys_ftruncate w f.fd (toI64 (alignSize n)) o.ftruncate_ok).1 < 0 →
      (f.resize_to w o n).1 = -1 ∧
      (f.resize_to w o n).2.2.log = w.log ++ [Call.ftruncate f.fd (toI64 (alignSize n))] ∧
      (f.resize_to w o n).2.2.inodes = w.inodes ∧
      (f.resize_to w o n).2.2.fds = w.fds ∧
      fileLen (f.resize_to w o n).2.2 f.fd = fileLen w f.fd) := by
  refine ⟨mem_resize_to_spec m w o n hn, file_resize_to_spec f w o n hn, ?_⟩
  intro ht
  have hw := sys_ftruncate_fail _ _ _ _ ht
  unfold vmstorage_file.resize_to
  simp only [ht, if_true, hw]
  simp [World.record, fileLen]

/-- Witness of C5: growing a one-page `vmstorage_mem` to 5000 bytes. -/
theorem resize_to_atomic_witness :
    ((vmstorage_mem.resize_to { buf := 65536, capacity := 4096 } World.empty Oracle.allow
        5000).1 = -1 ∧
      (vmstorage_mem.resize_to { buf := 65536, capacity := 4096 } World.empty Oracle.allow
        5000).2.1 = { buf := 65536, capacity := 4096 }) ∨
    ((vmstorage_mem.resize_to { buf := 65536, capacity := 4096 } World.empty Oracle.allow
        5000).1 = 0 ∧
      (vmstorage_mem.resize_to { buf := 65536, capacity := 4096 } World.empty Oracle.allow
        5000).2.1.capacity = alignSize 5000 ∧ 5000 ≤ alignSize 5000 ∧
      alignSize 5000 < 5000 + 4096 ∧ 4096 ∣ alignSize 5000 ∧
      (vmstorage_mem.resize_to { buf := 65536, capacity := 4096 } World.empty Oracle.allow
        5000).2.1.buf =
        (sys_mremap World.empty 65536 4096 (alignSize 5000) Oracle.allow.mremap_ret).1) :=
  (resize_to_atomic { buf := 65536, capacity := 4096 } vmstorage_file.ctor World.empty
    Oracle.allow 5000 (by decide)).1

/-! ## `vmstorage_file::resize_to` and the length of the file -/

theorem toI64_toNat (a : Nat) (ha : a < 18446744073709551616) (h : 0 ≤ toI64 a) :
    (toI64 a).toNat = a := by
  unfold toI64 TWO64 TWO63 at *
  split at h <;> split <;> omega

/-- What a successful `ftruncate` does: the descriptor is open for writing, the
length is not negative, and only the bytes of its inode change. -/
theorem sys_ftruncate_ok (w : World) (fd : Int) (len : Int) (ok : Bool)
    (h : ¬ (sys_ftruncate w fd len ok).1 < 0) :
    ∃ ino, w.fds fd = some (ino, true) ∧ 0 ≤ len ∧
      (sys_ftruncate w fd len ok).2 =
        { w with
            log := w.log ++ [Call.ftruncate fd len]
            inodes := upd w.inodes ino (resizeData (w.inodes ino) len.toNat) } := by
  unfold sys_ftruncate at *
  simp only [World.record] at *
  split at h
  · rename_i ino hfd
    split at h
    · rename_i hc
      refine ⟨ino, hfd, hc.2, ?_⟩
      simp [hfd, hc]
    · simp at h
  · simp at h

theorem sys_mmap_world (w : World) (len : Nat) (prot : Prot) (flags : MapFlags) (fd : Int)
    (r : Nat) : (sys_mmap w len prot flags fd r).2 = w.record (Call.mmap len prot flags fd) := by
  unfold sys_mmap
  simp only
  split
  · rfl
  · split
    · rfl
    · split <;> rfl

theorem sys_mmap_val (w : World) (len : Nat) (prot : Prot) (flags : MapFlags) (fd : Int)
    (r : Nat) :
    (sys_mmap w len prot flags fd r).1 = MAP_FAILED ∨
    ((sys_mmap w len prot flags fd r).1 = r ∧ r ≠ NULL ∧ len ≠ 0) := by
  unfold sys_mmap
  simp only
  split
  · exact Or.inl rfl
  · rename_i hc
    have hr : r ≠ NULL := fun e => hc (Or.inr e)
    have hl : len ≠ 0 := fun e => hc (Or.inl e)
    split
    · exact Or.inr ⟨rfl, hr, hl⟩
    · split
      · exact Or.inl rfl
      · exact Or.inl rfl
      · exact Or.inr ⟨rfl, hr, hl⟩

theorem sys_mmap_nonnull (w : World) (len : Nat) (prot : Prot) (flags : MapFlags) (fd : Int)
    (r : Nat) (h : (sys_mmap w len prot flags fd r).1 ≠ MAP_FAILED) :
    (sys_mmap w len prot flags fd r).1 ≠ NULL := by
  rcases sys_mmap_val w len prot flags fd r with h1 | h1
  · exact absurd h1 h
  · rw [h1.1]
    exact h1.2.1

theorem sys_munmap_world (w : World) (a l : Nat) (ok : Bool) :
    (sys_munmap w a l ok).2 = w.record (Call.munmap a l) := by
  unfold sys_munmap
  simp only
  split <;> rfl

/-- What a successful `create(fd, n)` leaves behind. -/
theorem file_create_ok (s : vmstorage_file) (w : World) (o : Oracle) (fd : Int) (n : Nat)
    (h : (s.create w o fd n).1 = 0) :
    ∃ ino, w.fds fd = some (ino, true) ∧
      (s.create w o fd n).2.1.capacity = alignSize n ∧
      (s.create w o fd n).2.1.fd = fd ∧
      (s.create w o fd n).2.1.buf ≠ NULL ∧
      alignSize n ≠ 0 ∧
      (s.create w o fd n).2.2 =
        { w with
            log := w.log ++ [Call.ftruncate fd (toI64 (alignSize n)),
                             Call.mmap (alignSize n) Prot.READ_WRITE MapFlags.SHARED fd]
            inodes := upd w.inodes ino (resizeData (w.inodes ino) (alignSize n)) } := by
  unfold vmstorage_file.create at h ⊢
  simp only at h ⊢
  by_cases ht : (sys_ftruncate w fd (toI64 (alignSize n)) o.ftruncate_ok).1 < 0
  · rw [if_pos ht] at h
    simp at h
  · obtain ⟨ino, hfd, h0, hw⟩ := sys_ftruncate_ok w fd (toI64 (alignSize n)) o.ftruncate_ok ht
    have hN := toI64_toNat (alignSize n) (alignSize_lt n) h0
    rw [if_neg ht] at h ⊢
    by_cases hm : (sys_mmap (sys_ftruncate w fd (toI64 (alignSize n)) o.ftruncate_ok).2
        (alignSize n) Prot.READ_WRITE MapFlags.SHARED fd o.mmap_ret).1 = MAP_FAILED
    · rw [if_pos hm] at h
      simp at h
    · have hnn := sys_mmap_nonnull _ _ _ _ _ _ hm
      have hl := sys_mmap_len _ _ _ _ _ _ hm
      rw [if_neg hm]
      refine ⟨ino, hfd, rfl, rfl, hnn, hl, ?_⟩
      rw [sys_mmap_world, hw, hN]
      simp [World.record]

theorem upd_upd {α β : Type} [DecidableEq α] (f : α → β) (a : α) (b c : β) :
    upd (upd f a b) a c = upd f a c := by
  funext k
  unfold upd
  split <;> rfl

theorem upd_same {α β : Type} [DecidableEq α] (f : α → β) (a : α) (b : β) :
    upd f a b a = b := by
  unfold upd
  simp

theorem resizeData_nil (k : Nat) : resizeData [] k = List.replicate k 0 := by
  unfold resizeData
  simp

/-- After the `unlink` of `create(path, n)` did not make it fail, the path names
no file. -/
theorem sys_unlink_ok (w : World) (path : String) (ok : Bool)
    (h : ¬ ((sys_unlink w path ok).1 < 0 ∧ (sys_unlink w path ok).2.1 ≠ Errno.ENOENT)) :
    (sys_unlink w path ok).2.2 =
      { w with log := w.log ++ [Call.unlink path], names := upd w.names path none } := by
  unfold sys_unlink at h ⊢
  simp only [World.record] at h ⊢
  split
  · split
    · rfl
    · rename_i hn
      have : upd w.names path none = w.names := by
        funext k
        unfold upd
        split
        · rename_i hk
          rw [hk, hn]
        · rfl
      rw [this]
  · rename_i hok
    simp [hok] at h

/-- What `open(path, O_CREAT | O_RDWR)` does when it succeeds on a path that names
no file: it creates an empty file. -/
theorem sys_open_creat_fresh (w : World) (path : String) (r : Int)
    (hn : w.names path = none) (h : ¬ (sys_open w path OpenFlags.CREAT_RDWR r).1 < 0) :
    (sys_open w path OpenFlags.CREAT_RDWR r).1 = r ∧ 0 ≤ r ∧
    (sys_open w path OpenFlags.CREAT_RDWR r).2 =
      { names := upd w.names path (some w.nextIno)
        inodes := upd w.inodes w.nextIno []
        fds := upd w.fds r (some (w.nextIno, true))
        nextIno := w.nextIno + 1
        log := w.log ++ [Call.open_ path OpenFlags.CREAT_RDWR] } := by
  unfold sys_open at h ⊢
  simp only [World.record] at h ⊢
  by_cases hr : r < 0
  · simp [hr] at h
  · rw [if_neg hr]
    refine ⟨?_, by omega, ?_⟩ <;> simp [hn]

/-- What a successful `create(path, n)` on an unallocated struct leaves behind:
the path names a new inode of `align(n)` zero bytes, open for writing under the
descriptor of the struct and mapped shared at its full length. -/
theorem file_create_path_ok (s : vmstorage_file) (w : World) (o : Oracle) (path : String)
    (n : Nat) (hb : s.buf = NULL) (h : (s.create_path w o path n).1 = 0) :
    (s.create_path w o path n).2.1.capacity = alignSize n ∧
    (s.create_path w o path n).2.1.fd = o.open_ret ∧
    (s.create_path w o path n).2.1.buf ≠ NULL ∧
    alignSize n ≠ 0 ∧
    (s.create_path w o path n).2.2 =
      { names := upd w.names path (some w.nextIno)
        inodes := upd w.inodes w.nextIno (List.replicate (alignSize n) 0)
        fds := upd w.fds o.open_ret (some (w.nextIno, true))
        nextIno := w.nextIno + 1
        log := w.log ++ [Call.unlink path, Call.open_ path OpenFlags.CREAT_RDWR,
                         Call.ftruncate o.open_ret (toI64 (alignSize n)),
                         Call.mmap (alignSize n) Prot.READ_WRITE MapFlags.SHARED o.open_ret] } := by
  unfold vmstorage_file.create_path at h ⊢
  simp only at h ⊢
  rw [if_pos hb] at h ⊢
  by_cases hu : (sys_unlink w path o.unlink_ok).1 < 0 ∧
      (sys_unlink w path o.unlink_ok).2.1 ≠ Errno.ENOENT
  · rw [if_pos hu] at h
    simp at h
  · rw [if_neg hu] at h ⊢
    have hw1 := sys_unlink_ok w path o.unlink_ok hu
    have hnone : (sys_unlink w path o.unlink_ok).2.2.names path = none := by
      rw [hw1]
      exact upd_same _ _ _
    by_cases hop : (sys_open (sys_unlink w path o.unlink_ok).2.2 path OpenFlags.CREAT_RDWR
        o.open_ret).1 < 0
    · rw [if_pos hop] at h
      simp at h
    · rw [if_neg hop] at h ⊢
      obtain ⟨hr, _, hw2⟩ := sys_open_creat_fresh _ path o.open_ret hnone hop
      rw [hr] at h ⊢
      obtain ⟨ino, hfd, hcap, hfd2, hbuf, hal, hw3⟩ := file_create_ok _ _ _ _ _ h
      rw [hw2] at hfd
      simp only [upd_same, Option.some.injEq, Prod.mk.injEq, and_true] at hfd
      subst hfd
      refine ⟨hcap, hfd2, hbuf, hal, ?_⟩
      rw [hw3, hw2, hw1]
      simp [upd_upd, upd_same, resizeData_nil]

/-! ## Shrink, then grow -/

/-- C9 (amended): when the struct is unallocated (`buf == NULL`), a successful
`create(path, N)` unlinks `path`, creates a new file there and truncates it to
`align(N)`: afterwards `path` names a newly allocated inode whose content is
`align(N)` zero bytes, whatever the file at `path` held before, and the struct
holds a descriptor of that inode, open for writing, mapped shared at capacity
`align(N)`, the least multiple of 4096 that is `≥ N`. -/
theorem create_path_recreates (s s' : vmstorage_file) (w w' : World) (o : Oracle)
    (path : String) (N : Nat)
    (hN : N < 18446744073709551616) (hb : s.buf = NULL)
    (e : s.create_path w o path N = (0, s', w')) :
    w'.names path = some w.nextIno ∧
    w'.inodes w.nextIno = List.replicate (alignSize N) 0 ∧
    (w'.inodes w.nextIno).length = alignSize N ∧
    (∀ b ∈ w'.inodes w.nextIno, b = 0) ∧
    w'.fds s'.fd = some (w.nextIno, true) ∧
    s'.buf ≠ NULL ∧ s'.capacity = alignSize N ∧
    N ≤ alignSize N ∧ alignSize N < N + 4096 ∧ 4096 ∣ alignSize N ∧
    w'.log = w.log ++ [Call.unlink path, Call.open_ path OpenFlags.CREAT_RDWR,
                       Call.ftruncate s'.fd (toI64 (alignSize N)),
                       Call.mmap (alignSize N) Prot.READ_WRITE MapFlags.SHARED s'.fd] := by
  have h1 : (s.create_path w o path N).1 = 0 := by rw [e]
  obtain ⟨c1, c2, c3, c4, c5⟩ := file_create_path_ok s w o path N hb h1
  rw [e] at c1 c2 c3 c5
  simp only at c1 c2 c3 c5
  have hg := alignSize_ge N hN c4
  have hd : w'.inodes w.nextIno = List.replicate (alignSize N) 0 := by
    rw [c5]
    exact upd_same _ _ _
  refine ⟨?_, hd, ?_, ?_, ?_, c3, c1, hg.1, hg.2, alignSize_dvd N, ?_⟩
  · rw [c5]
    exact upd_same _ _ _
  · rw [hd, List.length_replicate]
  · intro b hbm
    rw [hd] at hbm
    exact (List.mem_replicate.mp hbm).2
  · rw [c5, c2]
    exact upd_same _ _ _
  · rw [c5, c2]

/-- Witness of C9: `create("g", 5)` on a fresh struct, where `"g"` names a file
that holds the bytes 1, 2, 3. -/
theorem create_path_recreates_witness :
    (vmstorage_file.ctor.create_path World.sample Oracle.allow "g" 5).2.2.names "g" = some 2 ∧
    (vmstorage_file.ctor.create_path World.sample Oracle.allow "g" 5).2.2.inodes 2 =
      List.replicate (alignSize 5) 0 ∧
    (vmstorage_file.ctor.create_path World.sample Oracle.allow "g" 5).2.1.capacity =
      alignSize 5 :=
  have h := create_path_recreates vmstorage_file.ctor
    (vmstorage_file.ctor.create_path World.sample Oracle.allow "g" 5).2.1 World.sample
    (vmstorage_file.ctor.create_path World.sample Oracle.allow "g" 5).2.2 Oracle.allow "g" 5
    (by decide) rfl (Prod.ext (by decide) rfl)
  ⟨h.1, h.2.1, h.2.2.2.2.2.2.1⟩

/-- C9 as stated fails when the struct is already allocated: after
`create("f", 4096)`, the call `create("g", 4096)` returns 0 without touching `"g"`,
which still names the old file with its three bytes 1, 2, 3, while the struct still
maps the file `"f"`. -/
theorem create_path_allocated_counterexample :
    World.sample.names "g" = some 0 ∧ World.sample.inodes 0 = [1, 2, 3] ∧
    (vmstorage_file.ctor.create_path World.sample Oracle.allow "f" 4096).1 = 0 ∧
    ((vmstorage_file.ctor.create_path World.sample Oracle.allow "f" 4096).2.1.create_path
      (vmstorage_file.ctor.create_path World.sample Oracle.allow "f" 4096).2.2
      Oracle.allow "g" 4096).1 = 0 ∧
    ((vmstorage_file.ctor.create_path World.sample Oracle.allow "f" 4096).2.1.create_path
      (vmstorage_file.ctor.create_path World.sample Oracle.allow "f" 4096).2.2
      Oracle.allow "g" 4096).2.2.names "g" = some 0 ∧
    ((vmstorage_file.ctor.create_path World.sample Oracle.allow "f" 4096).2.1.create_path
      (vmstorage_file.ctor.create_path World.sample Oracle.allow "f" 4096).2.2
      Oracle.allow "g" 4096).2.2.inodes 0 = [1, 2, 3] ∧
    ((vmstorage_file.ctor.create_path World.sample Oracle.allow "f" 4096).2.1.create_path
      (vmstorage_file.ctor.create_path World.sample Oracle.allow "f" 4096).2.2
      Oracle.allow "g" 4096).2.2.names "f" = some 2 ∧
    ((vmstorage_file.ctor.create_path World.sample Oracle.allow "f" 4096).2.1.create_path
      (vmstorage_file.ctor.create_path World.sample Oracle.allow "f" 4096).2.2
      Oracle.allow "g" 4096).2.2.fds 3 = some (2, true) := by
  refine ⟨by decide, by decide, by decide, by decide, by decide, by decide, by decide,
    by decide⟩

/-! ## `vmstorage_file::load` -/

theorem file_close_world (s : vmstorage_file) (w : World) (o : Oracle) :
    (s.close w o).2.names = w.names ∧ (s.close w o).2.inodes = w.inodes ∧
    (s.close w o).2.log = w.log ++ (if 0 ≤ s.fd then [Call.close s.fd] else []) := by
  unfold vmstorage_file.close
  by_cases h : 0 ≤ s.fd
  · simp only [h, if_true]
    unfold sys_close
    simp only [World.record]
    split <;> exact ⟨rfl, rfl, rfl⟩
  · simp [h]

theorem file_free_world (s : vmstorage_file) (w : World) (o : Oracle) :
    (s.free w o).2.2.names = w.names ∧ (s.free w o).2.2.inodes = w.inodes ∧
    (s.free w o).2.2.log = w.log ++ (if 0 ≤ s.fd then [Call.close s.fd] else []) ++
      (if s.buf ≠ NULL then [Call.munmap s.buf s.capacity] else []) := by
  obtain ⟨c1, c2, c3⟩ := file_close_world s w o
  obtain ⟨c4, c5⟩ := file_close_capacity s w o
  unfold vmstorage_file.free
  simp only [c4, c5, sys_munmap_world]
  by_cases hb : s.buf = NULL
  · simp [hb, c1, c2, c3]
  · simp only [hb, ne_eq, not_false_eq_true, if_true]
    split <;> simp [World.record, c1, c2, c3]

theorem sys_open_rdonly (w : World) (path : String) (r : Int) (ino : Nat)
    (hex : w.names path = some ino) :
    (sys_open w path OpenFlags.RDONLY r).2.names = w.names ∧
    (sys_open w path OpenFlags.RDONLY r).2.inodes = w.inodes ∧
    (sys_open w path OpenFlags.RDONLY r).2.log = w.log ++ [Call.open_ path OpenFlags.RDONLY] ∧
    (¬ (sys_open w path OpenFlags.RDONLY r).1 < 0 →
      (sys_open w path OpenFlags.RDONLY r).2.fds (sys_open w path OpenFlags.RDONLY r).1 =
        some (ino, false)) ∧
    (0 ≤ r → ¬ (sys_open w path OpenFlags.RDONLY r).1 < 0) ∧
    (r < 0 → (sys_open w path OpenFlags.RDONLY r).1 < 0) := by
  unfold sys_open
  simp only [World.record]
  by_cases hr : r < 0
  · simp [hr]
  · simp [hr, hex, upd_same]

theorem sys_fstat_spec (w : World) (fd : Int) (ok : Bool) :
    (sys_fstat w fd ok).2.2 = w.record (Call.fstat fd) ∧
    (¬ (sys_fstat w fd ok).1 < 0 →
      ∀ ino wr, w.fds fd = some (ino, wr) →
        (sys_fstat w fd ok).2.1 = ((w.inodes ino).length : Int)) ∧
    (ok = true → ∀ ino wr, w.fds fd = some (ino, wr) → ¬ (sys_fstat w fd ok).1 < 0) ∧
    (ok = false → (sys_fstat w fd ok).1 < 0) := by
  unfold sys_fstat
  simp only [World.record]
  split
  · rename_i ino wr hfd
    split
    · rename_i hok
      refine ⟨rfl, ?_, ?_, ?_⟩
      · intro _ ino' wr' h'
        rw [hfd] at h'
        simp only [Option.some.injEq, Prod.mk.injEq] at h'
        rw [h'.1]
      · intro _ _ _ _
        simp
      · intro h
        rw [h] at hok
        simp at hok
    · rename_i hok
      refine ⟨rfl, ?_, ?_, ?_⟩
      · intro h
        simp at h
      · intro h
        exact absurd h hok
      · intro _
        simp
  · rename_i hfd
    refine ⟨rfl, ?_, ?_, ?_⟩
    · intro h
      simp at h
    · intro _ ino wr h
      rw [h] at hfd
      simp at hfd
    · intro _
      simp

theorem toU64_natCast (L : Nat) (h : L < 18446744073709551616) : toU64 (L : Int) = L := by
  unfold toU64 TWO64
  omega

/-- C8 (amended): `vmstorage_file::load(path, loc)`, for a file of `L` bytes at
`path` and any prior state of the struct. It returns 0 or -1. It first releases what
the struct holds (`close` of an open descriptor, then `munmap` of a mapping); when
that release fails it returns -1 with no further call and `*loc` untouched.
Otherwise its next call is `open(path, O_RDONLY)`; when the `open` or the `fstat`
fails it returns -1 with `*loc` untouched, and when both succeed `*loc` is exactly
`L`. No file is created or resized, so the file still has `L` bytes in every case.
On success `*loc` is `L`, `capacity` is `align(L)`, the least multiple of 4096 that
is `≥ L`, and the calls after the release are `open(path, O_RDONLY)`, `fstat` and a
read-only shared `mmap` of `align(L)` bytes of the descriptor, which is open
read-only on the file. -/
theorem load_reflects_length (s s' : vmstorage_file) (w w' : World) (o : Oracle)
    (path : String) (loc0 loc' : Nat) (ret : Int) (ino L : Nat)
    (hex : w.names path = some ino) (hL : (w.inodes ino).length = L)
    (h63 : L < 9223372036854775808)
    (e : s.load w o path loc0 = (ret, s', loc', w')) :
    (ret = 0 ∨ ret = -1) ∧
    (w'.names = w.names ∧ w'.inodes = w.inodes ∧ (w'.inodes ino).length = L) ∧
    ((s.free w o).2.2.log = w.log ++ (if 0 ≤ s.fd then [Call.close s.fd] else []) ++
        (if s.buf ≠ NULL then [Call.munmap s.buf s.capacity] else []) ∧
      ∃ rest, w'.log = (s.free w o).2.2.log ++ rest ∧
        ∀ c ∈ rest, c = Call.open_ path OpenFlags.RDONLY ∨ c = Call.fstat s'.fd ∨
          c = Call.mmap (alignSize L) Prot.READ MapFlags.SHARED s'.fd) ∧
    (loc' = loc0 ∨ loc' = L) ∧
    (¬ (s.free w o).1 < 0 → 0 ≤ o.open_ret → o.fstat_ok = true → loc' = L) ∧
    ((s.free w o).1 < 0 → ret = -1 ∧ loc' = loc0 ∧ w'.log = (s.free w o).2.2.log) ∧
    (¬ (s.free w o).1 < 0 →
      ∃ rest, w'.log = (s.free w o).2.2.log ++ Call.open_ path OpenFlags.RDONLY :: rest) ∧
    (¬ (s.free w o).1 < 0 → (o.open_ret < 0 ∨ o.fstat_ok = false) →
      ret = -1 ∧ loc' = loc0) ∧
    (ret = 0 →
      loc' = L ∧ s'.capacity = alignSize L ∧ L ≤ alignSize L ∧ alignSize L < L + 4096 ∧
      4096 ∣ alignSize L ∧ s'.buf ≠ NULL ∧ w'.fds s'.fd = some (ino, false) ∧
      w'.log = (s.free w o).2.2.log ++
        [Call.open_ path OpenFlags.RDONLY, Call.fstat s'.fd,
         Call.mmap (alignSize L) Prot.READ MapFlags.SHARED s'.fd]) := by
  obtain ⟨f1, f2, f3⟩ := file_free_world s w o
  have hex1 : (s.free w o).2.2.names path = some ino := by rw [f1, hex]
  obtain ⟨o1, o2, o3, o4, o5, o6⟩ :=
    sys_open_rdonly (s.free w o).2.2 path o.open_ret ino hex1
  have hL64 : L < 18446744073709551616 := by omega
  unfold vmstorage_file.load at e
  simp only at e
  generalize hopd : sys_open (s.free w o).2.2 path OpenFlags.RDONLY o.open_ret = op at *
  by_cases hf : (s.free w o).1 < 0
  · rw [if_pos hf] at e
    simp only [Prod.mk.injEq] at e
    obtain ⟨rfl, rfl, rfl, rfl⟩ := e
    refine ⟨Or.inr rfl, ⟨f1, f2, by rw [f2, hL]⟩, ⟨f3, [], by simp, by simp⟩, Or.inl rfl,
      fun h => absurd hf h, fun _ => ⟨rfl, rfl, rfl⟩, fun h => absurd hf h,
      fun h => absurd hf h, ?_⟩
    intro h
    simp at h
  · rw [if_neg hf] at e
    by_cases hop : op.1 < 0
    · rw [if_pos hop] at e
      simp only [Prod.mk.injEq] at e
      obtain ⟨rfl, rfl, rfl, rfl⟩ := e
      refine ⟨Or.inr rfl, ⟨by rw [o1, f1], by rw [o2, f2], by rw [o2, f2, hL]⟩,
        ⟨f3, [Call.open_ path OpenFlags.RDONLY], o3, by simp⟩, Or.inl rfl,
        fun _ h => absurd hop (o5 h), fun h => absurd h hf, fun _ => ⟨[], o3⟩,
        fun _ _ => ⟨rfl, rfl⟩, ?_⟩
      intro h
      simp at h
    · rw [if_neg hop] at e
      have hfd := o4 hop
      have hopen : ¬ o.open_ret < 0 := fun h => hop (o6 h)
      obtain ⟨t1, t2, t3, t4⟩ := sys_fstat_spec op.2 op.1 o.fstat_ok
      by_cases hst : (sys_fstat op.2 op.1 o.fstat_ok).1 < 0
      · rw [if_pos hst] at e
        simp only [Prod.mk.injEq] at e
        obtain ⟨rfl, rfl, rfl, rfl⟩ := e
        rw [t1]
        refine ⟨Or.inr rfl, ⟨by simp [World.record, o1, f1], by simp [World.record, o2, f2],
          by simp [World.record, o2, f2, hL]⟩,
          ⟨f3, [Call.open_ path OpenFlags.RDONLY, Call.fstat op.1],
            by simp [World.record, o3], by simp⟩, Or.inl rfl,
          fun _ _ h => absurd hst (t3 h ino false hfd), fun h => absurd h hf,
          fun _ => ⟨[Call.fstat op.1], by simp [World.record, o3]⟩,
          fun _ _ => ⟨rfl, rfl⟩, ?_⟩
        intro h
        simp at h
      · rw [if_neg hst] at e
        have hstat : ¬ o.fstat_ok = false := fun h => hst (t4 h)
        have hnone : ¬ (o.open_ret < 0 ∨ o.fstat_ok = false) := by
          rintro (h | h)
          · exact hopen h
          · exact hstat h
        have hsz := t2 hst ino false hfd
        rw [o2, f2, hL] at hsz
        rw [hsz, toU64_natCast L hL64, sys_mmap_world, t1] at e
        by_cases hm : (sys_mmap (op.2.record (Call.fstat op.1)) (alignSize L) Prot.READ
            MapFlags.SHARED op.1 o.mmap_ret).1 = MAP_FAILED
        · rw [if_pos hm] at e
          simp only [Prod.mk.injEq] at e
          obtain ⟨rfl, rfl, rfl, rfl⟩ := e
          refine ⟨Or.inr rfl, ⟨by simp [World.record, o1, f1], by simp [World.record, o2, f2],
            by simp [World.record, o2, f2, hL]⟩,
            ⟨f3, [Call.open_ path OpenFlags.RDONLY, Call.fstat op.1,
                Call.mmap (alignSize L) Prot.READ MapFlags.SHARED op.1],
              by simp [World.record, o3], by simp⟩, Or.inr rfl, fun _ _ _ => rfl,
            fun h => absurd h hf,
            fun _ => ⟨[Call.fstat op.1, Call.mmap (alignSize L) Prot.READ MapFlags.SHARED op.1],
              by simp [World.record, o3]⟩,
            fun _ h => absurd h hnone, ?_⟩
          intro h
          simp at h
        · rw [if_neg hm] at e
          simp only [Prod.mk.injEq] at e
          obtain ⟨rfl, rfl, rfl, rfl⟩ := e
          have hnn := sys_mmap_nonnull _ _ _ _ _ _ hm
          have hg := alignSize_ge L hL64 (sys_mmap_len _ _ _ _ _ _ hm)
          refine ⟨Or.inl rfl, ⟨by simp [World.record, o1, f1], by simp [World.record, o2, f2],
            by simp [World.record, o2, f2, hL]⟩,
            ⟨f3, [Call.open_ path OpenFlags.RDONLY, Call.fstat op.1,
                Call.mmap (alignSize L) Prot.READ MapFlags.SHARED op.1],
              by simp [World.record, o3], by simp⟩, Or.inr rfl, fun _ _ _ => rfl,
            fun h => absurd h hf,
            fun _ => ⟨[Call.fstat op.1, Call.mmap (alignSize L) Prot.READ MapFlags.SHARED op.1],
              by simp [World.record, o3]⟩,
            fun _ h => absurd h hnone, ?_⟩
          intro _
          refine ⟨rfl, rfl, hg.1, hg.2, alignSize_dvd L, hnn, ?_, ?_⟩
          · simpa [World.record] using hfd
          · simp [World.record, o3]

/-- Witness of C8 at `L = 10`: loading the ten-byte file `"d"` into a fresh struct
gives `*loc == 10` and `capacity == 4096`. -/
theorem load_reflects_length_witness :
    (vmstorage_file.ctor.load World.sample Oracle.allow "d" 0).1 = 0 ∧
    (vmstorage_file.ctor.load World.sample Oracle.allow "d" 0).2.2.1 = 10 ∧
    (vmstorage_file.ctor.load World.sample Oracle.allow "d" 0).2.1.capacity = alignSize 10 ∧
    alignSize 10 = 4096 :=
  have h := load_reflects_length vmstorage_file.ctor
    (vmstorage_file.ctor.load World.sample Oracle.allow "d" 0).2.1 World.sample
    (vmstorage_file.ctor.load World.sample Oracle.allow "d" 0).2.2.2 Oracle.allow "d" 0
    (vmstorage_file.ctor.load World.sample Oracle.allow "d" 0).2.2.1
    (vmstorage_file.ctor.load World.sample Oracle.allow "d" 0).1 1 10
    (by decide) (by decide) (by decide) rfl
  ⟨by decide, (h.2.2.2.2.2.2.2.2 (by decide)).1, (h.2.2.2.2.2.2.2.2 (by decide)).2.1,
    by decide⟩

/-- C8 as stated fails when the release fails: with the ten-byte file `"d"` in
place, `load("d", loc)` on the struct left by `create("f", 4096)`, with `munmap`
failing and `*loc` holding 77, returns -1 after `close` and `munmap` alone: the file
is never opened and `*loc` is still 77, not 10. -/
theorem load_release_failure_counterexample :
    (vmstorage_file.ctor.create_path World.sample Oracle.allow "f" 4096).2.2.names "d" =
      some 1 ∧
    ((vmstorage_file.ctor.create_path World.sample Oracle.allow "f" 4096).2.2.inodes 1).length
      = 10 ∧
    (vmstorage_file.ctor.create_path World.sample Oracle.allow "f" 4096).2.1 =
      { buf := 65536, capacity := 4096, fd := 3 } ∧
    ((vmstorage_file.ctor.create_path World.sample Oracle.allow "f" 4096).2.1.load
      (vmstorage_file.ctor.create_path World.sample Oracle.allow "f" 4096).2.2
      Oracle.munmapFails "d" 77).1 = -1 ∧
    ((vmstorage_file.ctor.create_path World.sample Oracle.allow "f" 4096).2.1.load
      (vmstorage_file.ctor.create_path World.sample Oracle.allow "f" 4096).2.2
      Oracle.munmapFails "d" 77).2.2.1 = 77 ∧
    ((vmstorage_file.ctor.create_path World.sample Oracle.allow "f" 4096).2.1.load
      (vmstorage_file.ctor.create_path World.sample Oracle.allow "f" 4096).2.2
      Oracle.munmapFails "d" 77).2.2.2.log =
      [Call.unlink "f", Call.open_ "f" OpenFlags.CREAT_RDWR, Call.ftruncate 3 4096,
       Call.mmap 4096 Prot.READ_WRITE MapFlags.SHARED 3, Call.close 3,
       Call.munmap 65536 4096] := by
  refine ⟨by decide, by decide, by decide, by decide, by decide, by decide⟩

/-! ## `mkdir_recursive` -/

theorem nul_ne_slash : NUL ≠ '/' := by decide

theorem cstr_append_nul (t rest : List Char) (ht : NUL ∉ t) : cstr (t ++ NUL :: rest) = t := by
  unfold cstr
  induction t with
  | nil => simp
  | cons x xs ih =>
    have hx : x ≠ NUL := fun e => ht (by simp [e])
    have hxs : NUL ∉ xs := fun e => ht (by simp [e])
    simp [hx, ih hxs]

theorem takeWhile_stop (seg : List Char) (d : Char) (rest : List Char)
    (hseg : ∀ y ∈ seg, y ≠ '/' ∧ y ≠ NUL) (hd : d = '/' ∨ d = NUL) :
    (seg ++ d :: rest).takeWhile (fun x => x != '/' && x != NUL) = seg := by
  induction seg with
  | nil =>
    rcases hd with h | h <;> simp [h]
  | cons x xs ih =>
    have hx := hseg x (by simp)
    have hxs : ∀ y ∈ xs, y ≠ '/' ∧ y ≠ NUL := fun y hy => hseg y (by simp [hy])
    simp [hx.1, hx.2, ih hxs]

theorem strchrnul_spec (pre seg : List Char) (d : Char) (rest : List Char)
    (hseg : ∀ y ∈ seg, y ≠ '/' ∧ y ≠ NUL) (hd : d = '/' ∨ d = NUL) :
    strchrnul (pre ++ seg ++ d :: rest) pre.length '/' = pre.length + seg.length := by
  unfold strchrnul
  rw [List.append_assoc, List.drop_left, takeWhile_stop seg d rest hseg hd]

theorem getD_at (pre : List Char) (d : Char) (rest : List Char) :
    (pre ++ d :: rest).getD pre.length NUL = d := by
  induction pre with
  | nil => rfl
  | cons x xs ih => simpa using ih

theorem set_at (pre : List Char) (d v : Char) (rest : List Char) :
    (pre ++ d :: rest).set pre.length v = pre ++ v :: rest := by
  induction pre with
  | nil => rfl
  | cons x xs ih => simp [ih]

/-- One iteration of the loop, for a buffer `pre ++ x :: seg ++ d :: rest` with
`cur` at `x`, where `seg` runs up to the next separator or terminator `d`. -/
theorem mkdir_loop_step (fuel : Nat) (w : DirWorld) (pre seg rest : List Char) (x d : Char)
    (hx : x ≠ NUL) (hpre : NUL ∉ pre)
    (hseg : ∀ y ∈ seg, y ≠ '/' ∧ y ≠ NUL) (hd : d = '/' ∨ d = NUL) :
    mkdir_loop (fuel + 1) w (pre ++ x :: seg ++ d :: rest) pre.length =
      if (sys_mkdir w (pre ++ x :: seg)).1 < 0 ∧
          (sys_mkdir w (pre ++ x :: seg)).2.1 ≠ Errno.EEXIST then
        some (false, pre ++ x :: seg ++ NUL :: rest, (sys_mkdir w (pre ++ x :: seg)).2.2)
      else
        mkdir_loop fuel (sys_mkdir w (pre ++ x :: seg)).2.2 (pre ++ x :: seg ++ d :: rest)
          (pre ++ x :: seg).length := by
  have hb : pre ++ x :: seg ++ d :: rest = (pre ++ [x]) ++ seg ++ d :: rest := by simp
  have hb2 : pre ++ x :: seg ++ d :: rest = (pre ++ x :: seg) ++ d :: rest := by simp
  have hcur : (pre ++ x :: seg ++ d :: rest).getD pre.length NUL = x := by
    have := getD_at pre x (seg ++ d :: rest)
    simpa using this
  have hp : strchrnul (pre ++ x :: seg ++ d :: rest) (pre.length + 1) '/' =
      (pre ++ x :: seg).length := by
    have h1 := strchrnul_spec (pre ++ [x]) seg d rest hseg hd
    have h2 : (pre ++ [x]).length = pre.length + 1 := by simp
    have h3 : (pre ++ x :: seg).length = pre.length + 1 + seg.length := by
      simp only [List.length_append, List.length_cons]
      omega
    rw [hb, h3, ← h2]
    exact h1
  have hc : (pre ++ x :: seg ++ d :: rest).getD (pre ++ x :: seg).length NUL = d := by
    rw [hb2]
    exact getD_at _ _ _
  have hset : (pre ++ x :: seg ++ d :: rest).set (pre ++ x :: seg).length NUL =
      (pre ++ x :: seg) ++ NUL :: rest := by
    rw [hb2]
    exact set_at _ _ _ _
  have hnul : NUL ∉ pre ++ x :: seg := by
    intro h
    rcases List.mem_append.mp h with h1 | h1
    · exact hpre h1
    · rcases List.mem_cons.mp h1 with h2 | h2
      · exact hx h2.symm
      · exact (hseg NUL h2).2 rfl
  have hcstr : cstr ((pre ++ x :: seg) ++ NUL :: rest) = pre ++ x :: seg :=
    cstr_append_nul _ _ hnul
  have hrestore : ((pre ++ x :: seg) ++ NUL :: rest).set (pre ++ x :: seg).length d =
      pre ++ x :: seg ++ d :: rest := by
    rw [set_at, hb2]
  rw [mkdir_loop]
  simp only [hcur, hx, if_false, hp, hc, hset, hcstr, hrestore]

theorem split_at_slash (l : List Char) :
    ∃ seg after, l = seg ++ after ∧ (∀ y ∈ seg, y ≠ '/') ∧
      (after = [] ∨ ∃ m, after = '/' :: m) := by
  induction l with
  | nil => exact ⟨[], [], rfl, by simp, Or.inl rfl⟩
  | cons c r ih =>
    by_cases hc : c = '/'
    · exact ⟨[], c :: r, rfl, by simp, Or.inr ⟨r, by rw [hc]⟩⟩
    · obtain ⟨seg, after, h1, h2, h3⟩ := ih
      refine ⟨c :: seg, after, by rw [h1]; rfl, ?_, h3⟩
      intro y hy
      rcases List.mem_cons.mp hy with h | h
      · rw [h]; exact hc
      · exact h2 y h

theorem ancAux_skip (seg : List Char) (hseg : ∀ y ∈ seg, y ≠ '/') (acc rest : List Char) :
    ancAux acc (seg ++ rest) = ancAux (acc ++ seg) rest := by
  induction seg generalizing acc with
  | nil => simp
  | cons c r ih =>
    have hc : c ≠ '/' := hseg c (by simp)
    have hr : ∀ y ∈ r, y ≠ '/' := fun y hy => hseg y (by simp [hy])
    rw [List.cons_append, ancAux]
    simp only [hc, false_and, if_false]
    rw [ih hr]
    simp

theorem ancAux_no_slash (fin : List Char) (hfin : ∀ y ∈ fin, y ≠ '/') (acc : List Char) :
    ancAux acc fin = [] := by
  have := ancAux_skip fin hfin acc []
  rw [List.append_nil] at this
  rw [this]
  rfl

theorem ancAux_append_no_slash (fin : List Char) (hfin : ∀ y ∈ fin, y ≠ '/')
    (l acc : List Char) : ancAux acc (l ++ fin) = ancAux acc l := by
  induction l generalizing acc with
  | nil => simp [ancAux_no_slash fin hfin, ancAux]
  | cons c r ih =>
    rw [List.cons_append, ancAux, ancAux]
    rw [ih]

theorem loopCalls_last (acc seg : List Char) (x : Char) (hseg : ∀ y ∈ seg, y ≠ '/') :
    loopCalls acc (x :: seg) = [acc ++ x :: seg] := by
  simp only [loopCalls]
  rw [ancAux_skip seg hseg, ancAux]
  simp [ancAux]

theorem loopCalls_next (acc seg m : List Char) (x : Char) (hseg : ∀ y ∈ seg, y ≠ '/') :
    loopCalls acc (x :: (seg ++ '/' :: m)) =
      (acc ++ x :: seg) :: loopCalls (acc ++ x :: seg) ('/' :: m) := by
  simp only [loopCalls]
  rw [List.append_assoc, ancAux_skip seg hseg, List.cons_append, ancAux]
  simp

theorem mkdir_loop_exit (f : Nat) (w : DirWorld) (acc tail : List Char) :
    mkdir_loop (f + 1) w (acc ++ NUL :: tail) acc.length = some (true, acc ++ NUL :: tail, w) := by
  rw [mkdir_loop, if_pos (getD_at acc NUL tail)]

/-- The loop, started with `cur` at the head of `rem` in the buffer
`acc ++ rem ++ NUL :: tail`, issues the calls `loopCalls acc rem` up to the first
failure, and leaves the buffer as it was when no call fails. -/
theorem mkdir_loop_spec (n : Nat) :
    ∀ (rem acc tail : List Char) (w : DirWorld) (fuel : Nat),
      rem.length ≤ n → NUL ∉ acc ++ rem → rem.length < fuel →
      ∃ b, mkdir_loop fuel w (acc ++ rem ++ NUL :: tail) acc.length =
          some ((runCalls w (loopCalls acc rem)).1, b, (runCalls w (loopCalls acc rem)).2) ∧
        ((runCalls w (loopCalls acc rem)).1 = true → b = acc ++ rem ++ NUL :: tail) := by
  induction n with
  | zero =>
    intro rem acc tail w fuel hn _ hf
    have hrem : rem = [] := List.length_eq_zero.mp (by omega)
    subst hrem
    obtain ⟨f, rfl⟩ : ∃ f, fuel = f + 1 := ⟨fuel - 1, by simp at hf; omega⟩
    refine ⟨acc ++ [] ++ NUL :: tail, ?_, fun _ => rfl⟩
    rw [List.append_nil, mkdir_loop_exit]
    simp [loopCalls, runCalls]
  | succ n ih =>
    intro rem acc tail w fuel hn hnul hf
    obtain ⟨f, rfl⟩ : ∃ f, fuel = f + 1 := ⟨fuel - 1, by omega⟩
    cases rem with
    | nil =>
      refine ⟨acc ++ [] ++ NUL :: tail, ?_, fun _ => rfl⟩
      rw [List.append_nil, mkdir_loop_exit]
      simp [loopCalls, runCalls]
    | cons x more =>
      have hx : x ≠ NUL := fun e => hnul (by simp [e])
      have hacc : NUL ∉ acc := fun e => hnul (by simp [e])
      have hmore : NUL ∉ more := fun e => hnul (by simp [e])
      obtain ⟨seg, after, hsplit, hseg, hafter⟩ := split_at_slash more
      subst hsplit
      have hseg2 : ∀ y ∈ seg, y ≠ '/' ∧ y ≠ NUL := by
        intro y hy
        refine ⟨hseg y hy, ?_⟩
        intro e
        exact hmore (by simp [← e, hy])
      have hlen : (acc ++ x :: seg).length = acc.length + 1 + seg.length := by
        simp only [List.length_append, List.length_cons]
        omega
      rcases hafter with rfl | ⟨m, rfl⟩
      · -- the segment runs up to the terminator
        have hbuf : acc ++ x :: (seg ++ []) ++ NUL :: tail = acc ++ x :: seg ++ NUL :: tail := by
          simp
        have hstep := mkdir_loop_step f w acc seg tail x NUL hx hacc hseg2 (Or.inr rfl)
        rw [List.append_nil, loopCalls_last acc seg x hseg, hstep]
        simp only [runCalls]
        by_cases hfail : (sys_mkdir w (acc ++ x :: seg)).1 < 0 ∧
            (sys_mkdir w (acc ++ x :: seg)).2.1 ≠ Errno.EEXIST
        · rw [if_pos hfail, if_pos hfail]
          exact ⟨_, rfl, fun h => by simp at h⟩
        · rw [if_neg hfail, if_neg hfail]
          obtain ⟨b, hb1, hb2⟩ := ih [] (acc ++ x :: seg) tail
            (sys_mkdir w (acc ++ x :: seg)).2.2 f (by simp)
            (by simpa using hnul) (by simp at hf ⊢; omega)
          simp only [List.append_nil, loopCalls, runCalls] at hb1 hb2
          have e1 : acc ++ x :: seg ++ NUL :: tail = (acc ++ x :: seg) ++ NUL :: tail := by simp
          rw [e1, hb1]
          exact ⟨b, rfl, fun _ => by rw [hb2 trivial]⟩
      · -- the segment runs up to a separator
        have hstep := mkdir_loop_step f w acc seg (m ++ NUL :: tail) x '/' hx hacc hseg2
          (Or.inl rfl)
        have hbuf : acc ++ x :: (seg ++ '/' :: m) ++ NUL :: tail =
            acc ++ x :: seg ++ '/' :: (m ++ NUL :: tail) := by simp
        have hbuf2 : acc ++ x :: seg ++ '/' :: (m ++ NUL :: tail) =
            (acc ++ x :: seg) ++ ('/' :: m) ++ NUL :: tail := by simp
        rw [loopCalls_next acc seg m x hseg, hbuf, hstep]
        simp only [runCalls]
        by_cases hfail : (sys_mkdir w (acc ++ x :: seg)).1 < 0 ∧
            (sys_mkdir w (acc ++ x :: seg)).2.1 ≠ Errno.EEXIST
        · rw [if_pos hfail, if_pos hfail]
          exact ⟨_, rfl, fun h => by simp at h⟩
        · rw [if_neg hfail, if_neg hfail]
          obtain ⟨b, hb1, hb2⟩ := ih ('/' :: m) (acc ++ x :: seg) tail
            (sys_mkdir w (acc ++ x :: seg)).2.2 f
            (by simp only [List.length_cons, List.length_append] at hn ⊢; omega)
            (by simpa using hnul)
            (by simp only [List.length_cons, List.length_append] at hf ⊢; omega)
          rw [hbuf2, hb1]
          exact ⟨b, rfl, hb2⟩

theorem strrchrAux_tail (c : Char) (fin rest : List Char) (hfin : ∀ y ∈ fin, y ≠ c ∧ y ≠ NUL)
    (i : Nat) (found : Option Nat) : strrchrAux c (fin ++ NUL :: rest) i found = found := by
  induction fin generalizing i with
  | nil => simp [strrchrAux]
  | cons y ys ih =>
    have hy := hfin y (by simp)
    have hys : ∀ z ∈ ys, z ≠ c ∧ z ≠ NUL := fun z hz => hfin z (by simp [hz])
    rw [List.cons_append, strrchrAux]
    simp only [hy.1, hy.2, if_false]
    exact ih hys (i + 1)

theorem strrchrAux_last (c : Char) (hc : c ≠ NUL) (t fin rest : List Char) (ht : NUL ∉ t)
    (hfin : ∀ y ∈ fin, y ≠ c ∧ y ≠ NUL) (i : Nat) (found : Option Nat) :
    strrchrAux c (t ++ c :: fin ++ NUL :: rest) i found = some (i + t.length) := by
  induction t generalizing i found with
  | nil =>
    rw [List.nil_append, List.cons_append, strrchrAux]
    simp only [hc, if_false, if_true]
    rw [strrchrAux_tail c fin rest hfin]
    simp
  | cons y ys ih =>
    have hy : y ≠ NUL := fun e => ht (by simp [e])
    have hys : NUL ∉ ys := fun e => ht (by simp [e])
    rw [List.cons_append, List.cons_append, strrchrAux]
    simp only [hy, if_false]
    rw [ih hys]
    simp only [List.length_cons]
    congr 1
    omega

theorem exists_last_split (c : Char) (l : List Char) (h : c ∈ l) :
    ∃ t fin, l = t ++ c :: fin ∧ c ∉ fin := by
  induction l with
  | nil => simp at h
  | cons x xs ih =>
    by_cases hx : c ∈ xs
    · obtain ⟨t, fin, h1, h2⟩ := ih hx
      exact ⟨x :: t, fin, by rw [h1]; rfl, h2⟩
    · rcases List.mem_cons.mp h with h1 | h1
      · exact ⟨[], xs, by rw [h1]; rfl, hx⟩
      · exact absurd h1 hx

theorem ancAux_eq_filter (rest : List Char) : ∀ acc : List Char,
    ancAux acc rest =
      ((List.range' acc.length rest.length).filter
        (fun i => decide (0 < i) && ((acc ++ rest).getD i NUL == '/'))).map
        (fun i => (acc ++ rest).take i) := by
  induction rest with
  | nil => intro acc; simp [ancAux]
  | cons c r ih =>
    intro acc
    have hlen : (acc ++ [c]).length = acc.length + 1 := by simp
    have happ : acc ++ [c] ++ r = acc ++ c :: r := by simp
    have ih' := ih (acc ++ [c])
    rw [hlen, happ] at ih'
    have hget : (acc ++ c :: r).getD acc.length NUL = c := getD_at acc c r
    have htake : (acc ++ c :: r).take acc.length = acc := List.take_left _ _
    rw [ancAux, List.length_cons, List.range'_succ, List.filter_cons, hget]
    by_cases hc : c = '/' ∧ acc ≠ []
    · have hpos : 0 < acc.length := List.length_pos.mpr hc.2
      rw [if_pos hc]
      obtain ⟨rfl, _⟩ := hc
      simp only [hpos, decide_True, beq_self_eq_true, Bool.and_self, if_true,
        List.map_cons, htake]
      rw [ih']
    · rw [if_neg hc]
      have hfalse : (decide (0 < acc.length) && (c == '/')) = false := by
        by_cases h1 : c = '/'
        · have : acc = [] := by
            by_contra h2
            exact hc ⟨h1, h2⟩
          simp [this]
        · simp [h1]
      rw [hfalse]
      simp only [Bool.false_eq_true, if_false]
      rw [ih']

theorem ancestors_eq (path : List Char) : ancestors path = ancAux [] path := by
  rw [ancAux_eq_filter path []]
  unfold ancestors
  rw [List.range_eq_range']
  simp

theorem sys_mkdir_spec (w : DirWorld) (d : List Char) :
    (sys_mkdir w d).2.2.outcome = w.outcome ∧
    (sys_mkdir w d).2.2.calls = w.calls ++ [d] ∧
    (sys_mkdir w d).2.2.made =
      (if w.outcome w.calls.length d = MkdirRes.CREATED then w.made ++ [d] else w.made) ∧
    (((sys_mkdir w d).1 < 0 ∧ (sys_mkdir w d).2.1 ≠ Errno.EEXIST) ↔
      w.outcome w.calls.length d = MkdirRes.FAILED) := by
  unfold sys_mkdir
  cases h : w.outcome w.calls.length d <;> simp

theorem runCalls_spec (ds : List (List Char)) : ∀ w : DirWorld,
    (runCalls w ds).2.outcome = w.outcome ∧
    (runCalls w ds).2.calls = w.calls ++ uptoFail w.outcome w.calls.length ds ∧
    ((runCalls w ds).1 = true ↔
      ∀ i d, ds[i]? = some d → w.outcome (w.calls.length + i) d ≠ MkdirRes.FAILED) ∧
    ((runCalls w ds).1 = true → (runCalls w ds).2.calls = w.calls ++ ds) ∧
    ((runCalls w ds).1 = true →
      (runCalls w ds).2.made = w.made ++ createdBy w.outcome w.calls.length ds) := by
  induction ds with
  | nil => intro w; simp [runCalls, uptoFail, createdBy]
  | cons d ds ih =>
    intro w
    obtain ⟨m1, m2, m3, m4⟩ := sys_mkdir_spec w d
    obtain ⟨r1, r2, r3, r4, r5⟩ := ih (sys_mkdir w d).2.2
    have hlen : (sys_mkdir w d).2.2.calls.length = w.calls.length + 1 := by
      rw [m2]
      simp
    rw [m1, hlen] at r2 r3 r5
    rw [runCalls, uptoFail, createdBy]
    by_cases hf : w.outcome w.calls.length d = MkdirRes.FAILED
    · rw [if_pos (m4.mpr hf), if_pos hf]
      refine ⟨m1, m2, ?_, ?_, ?_⟩
      · constructor
        · intro h
          simp at h
        · intro h
          exact absurd hf (h 0 d (by simp))
      · intro h
        simp at h
      · intro h
        simp at h
    · rw [if_neg (fun h => hf (m4.mp h)), if_neg hf]
      refine ⟨by rw [r1, m1], ?_, ?_, ?_, ?_⟩
      · rw [r2, m2]
        simp
      · rw [r3]
        constructor
        · intro h i e he
          cases i with
          | zero =>
            simp only [List.getElem?_cons_zero, Option.some.injEq] at he
            rw [← he]
            exact hf
          | succ j =>
            simp only [List.getElem?_cons_succ] at he
            have := h j e he
            have e1 : w.calls.length + (j + 1) = w.calls.length + 1 + j := by omega
            rw [e1]
            exact this
        · intro h i e he
          have := h (i + 1) e (by simpa using he)
          have e1 : w.calls.length + (i + 1) = w.calls.length + 1 + i := by omega
          rw [e1] at this
          exact this
      · intro h
        rw [r4 h, m2]
        simp
      · intro h
        rw [r5 h, m3]
        by_cases hc : w.outcome w.calls.length d = MkdirRes.CREATED
        · simp [hc]
        · simp [hc]

theorem mem_createdBy (outcome : Nat → List Char → MkdirRes) (ds : List (List Char)) :
    ∀ (k i : Nat) (d : List Char), ds[i]? = some d → outcome (k + i) d = MkdirRes.CREATED →
      d ∈ createdBy outcome k ds := by
  induction ds with
  | nil => intro k i d h; simp at h
  | cons x xs ih =>
    intro k i d h hc
    rw [createdBy]
    cases i with
    | zero =>
      simp only [List.getElem?_cons_zero, Option.some.injEq] at h
      subst h
      rw [Nat.add_zero] at hc
      simp [hc]
    | succ j =>
      simp only [List.getElem?_cons_succ] at h
      have e1 : k + (j + 1) = k + 1 + j := by omega
      rw [e1] at hc
      have := ih (k + 1) j d h hc
      split
      · exact List.mem_cons_of_mem _ this
      · exact this

theorem ancestors_no_slash (path : List Char) (h : '/' ∉ path) : ancestors path = [] := by
  rw [ancestors_eq]
  exact ancAux_no_slash path (fun y hy e => h (e ▸ hy)) []

theorem ancestors_split (t fin : List Char) (hfin : '/' ∉ fin) :
    ancestors (t ++ '/' :: fin) = loopCalls [] t := by
  have hfin' : ∀ y ∈ fin, y ≠ '/' := fun y hy e => hfin (e ▸ hy)
  rw [ancestors_eq]
  cases t with
  | nil =>
    rw [List.nil_append, ancAux]
    simp only [ne_eq, not_true_eq_false, and_false, if_false]
    rw [ancAux_no_slash fin hfin']
    rfl
  | cons x more =>
    rw [List.cons_append, ancAux]
    simp only [ne_eq, not_true_eq_false, and_false, if_false, loopCalls]
    have : more ++ '/' :: fin = (more ++ ['/']) ++ fin := by simp
    rw [this, ancAux_append_no_slash fin hfin']

/-- C10: `mkdir_recursive(file)` on a buffer that holds the string `path`. It
returns, and its `mkdir` calls are, in this order, the proper ancestor prefixes of
`path` (the text before each `/`, shortest first, never the empty text before a
leading `/` and never the final component) up to and including the first one on
which `mkdir` fails for a reason other than `EEXIST`. It returns -1 exactly when
there is such a failure and 0 otherwise; a path without `/` has no ancestors, so no
call is issued and 0 is returned. When it returns 0 the buffer again holds `path`,
`mkdir` was issued on every ancestor prefix, and each of these calls either created
the directory or found the name existing already (`EEXIST`). -/
theorem mkdir_recursive_spec (w : DirWorld) (path : List Char) (hnul : NUL ∉ path) :
    ∃ ret b w', mkdir_recursive w (path ++ [NUL]) = some (ret, b, w') ∧
      w'.calls = w.calls ++ uptoFail w.outcome w.calls.length (ancestors path) ∧
      (ret = 0 ∨ ret = -1) ∧
      (ret = -1 ↔ ∃ i d, (ancestors path)[i]? = some d ∧
        w.outcome (w.calls.length + i) d = MkdirRes.FAILED) ∧
      (ret = 0 → b = path ++ [NUL]) ∧
      (ret = 0 →
        w'.calls = w.calls ++ ancestors path ∧
        w'.made = w.made ++ createdBy w.outcome w.calls.length (ancestors path) ∧
        ∀ i d, (ancestors path)[i]? = some d →
          (w.outcome (w.calls.length + i) d = MkdirRes.CREATED ∧ d ∈ w'.made) ∨
          w.outcome (w.calls.length + i) d = MkdirRes.EXISTS) ∧
      ('/' ∉ path → ret = 0 ∧ w'.calls = w.calls ∧ ancestors path = []) := by
  by_cases hs : '/' ∈ path
  · obtain ⟨t, fin, hsplit, hfin⟩ := exists_last_split '/' path hs
    subst hsplit
    have ht : NUL ∉ t := fun e => hnul (by simp [e])
    have hfinN : NUL ∉ fin := fun e => hnul (by simp [e])
    have hfin2 : ∀ y ∈ fin, y ≠ '/' ∧ y ≠ NUL :=
      fun y hy => ⟨fun e => hfin (e ▸ hy), fun e => hfinN (e ▸ hy)⟩
    have hbuf : t ++ '/' :: fin ++ [NUL] = t ++ '/' :: fin ++ NUL :: [] := rfl
    have hstr : strrchr (t ++ '/' :: fin ++ [NUL]) '/' = some t.length := by
      unfold strrchr
      rw [hbuf, strrchrAux_last '/' (Ne.symm nul_ne_slash) t fin [] ht hfin2]
      simp
    have hset : (t ++ '/' :: fin ++ [NUL]).set t.length NUL = [] ++ t ++ NUL :: (fin ++ [NUL]) := by
      have := set_at t '/' NUL (fin ++ [NUL])
      simp [this]
    obtain ⟨b, hb1, hb2⟩ := mkdir_loop_spec t.length t [] (fin ++ [NUL]) w
      (([] ++ t ++ NUL :: (fin ++ [NUL])).length + 1) (Nat.le_refl _) (by simpa using ht)
      (by simp only [List.length_append, List.length_cons]; omega)
    rw [← ancestors_split t fin hfin] at hb1 hb2
    obtain ⟨r1, r2, r3, r4, r5⟩ := runCalls_spec (ancestors (t ++ '/' :: fin)) w
    unfold mkdir_recursive
    rw [hstr]
    simp only [hset]
    rw [List.length_nil] at hb1
    rw [hb1]
    cases hok : (runCalls w (ancestors (t ++ '/' :: fin))).1 with
    | true =>
      refine ⟨0, b.set t.length '/', _, rfl, r2, Or.inl rfl, ?_, ?_, ?_, ?_⟩
      · constructor
        · intro h
          simp at h
        · rintro ⟨i, d, hd, hfail⟩
          exact absurd hfail ((r3.mp hok) i d hd)
      · intro _
        rw [hb2 hok]
        have := set_at t NUL '/' (fin ++ [NUL])
        simp [this]
      · intro _
        refine ⟨r4 hok, r5 hok, ?_⟩
        intro i d hd
        have hnf := (r3.mp hok) i d hd
        cases hc : w.outcome (w.calls.length + i) d with
        | CREATED =>
          refine Or.inl ⟨rfl, ?_⟩
          rw [r5 hok]
          exact List.mem_append_right _ (mem_createdBy w.outcome _ _ i d hd hc)
        | EXISTS => exact Or.inr rfl
        | FAILED => exact absurd hc hnf
      · intro h
        exact absurd hs h
    | false =>
      refine ⟨-1, b, _, rfl, r2, Or.inr rfl, ?_, ?_, ?_, ?_⟩
      · constructor
        · intro _
          by_contra hne
          have hall : ∀ i d, (ancestors (t ++ '/' :: fin))[i]? = some d →
              w.outcome (w.calls.length + i) d ≠ MkdirRes.FAILED := by
            intro i d hd hfail
            exact hne ⟨i, d, hd, hfail⟩
          have := r3.mpr hall
          rw [hok] at this
          simp at this
        · intro _
          rfl
      · intro h
        simp at h
      · intro h
        simp at h
      · intro h
        exact absurd hs h
  · have hpath : ∀ y ∈ path, y ≠ '/' ∧ y ≠ NUL :=
      fun y hy => ⟨fun e => hs (e ▸ hy), fun e => hnul (e ▸ hy)⟩
    have hstr : strrchr (path ++ [NUL]) '/' = none := by
      unfold strrchr
      exact strrchrAux_tail '/' path [] hpath 0 none
    have hanc := ancestors_no_slash path hs
    unfold mkdir_recursive
    rw [hstr]
    refine ⟨0, path ++ [NUL], w, rfl, ?_, Or.inl rfl, ?_, fun _ => rfl, ?_, ?_⟩
    · rw [hanc]
      simp [uptoFail]
    · rw [hanc]
      simp
    · rw [hanc]
      simp [createdBy]
    · intro _
      exact ⟨rfl, rfl, hanc⟩

/-- Witness of C10: the path `a/b/c`, where the name `a` exists already and the
other `mkdir` calls create their directory. -/
theorem mkdir_recursive_spec_witness :
    ∃ ret b w',
      mkdir_recursive
        { outcome := fun k _ => if k = 0 then MkdirRes.EXISTS else MkdirRes.CREATED,
          calls := [], made := [] }
        ("a/b/c".toList ++ [NUL]) = some (ret, b, w') ∧
      w'.calls = [] ++ uptoFail (fun k _ => if k = 0 then MkdirRes.EXISTS else MkdirRes.CREATED)
        ([] : List (List Char)).length (ancestors "a/b/c".toList) ∧
      (ret = 0 ∨ ret = -1) ∧
      (ret = -1 ↔ ∃ i d, (ancestors "a/b/c".toList)[i]? = some d ∧
        (fun k (_ : List Char) => if k = 0 then MkdirRes.EXISTS else MkdirRes.CREATED)
          (([] : List (List Char)).length + i) d = MkdirRes.FAILED) ∧
      (ret = 0 → b = "a/b/c".toList ++ [NUL]) ∧
      (ret = 0 →
        w'.calls = [] ++ ancestors "a/b/c".toList ∧
        w'.made = [] ++ createdBy
          (fun k _ => if k = 0 then MkdirRes.EXISTS else MkdirRes.CREATED)
          ([] : List (List Char)).length (ancestors "a/b/c".toList) ∧
        ∀ i d, (ancestors "a/b/c".toList)[i]? = some d →
          ((fun k (_ : List Char) => if k = 0 then MkdirRes.EXISTS else MkdirRes.CREATED)
              (([] : List (List Char)).length + i) d = MkdirRes.CREATED ∧ d ∈ w'.made) ∨
          (fun k (_ : List Char) => if k = 0 then MkdirRes.EXISTS else MkdirRes.CREATED)
            (([] : List (List Char)).length + i) d = MkdirRes.EXISTS) ∧
      ('/' ∉ "a/b/c".toList → ret = 0 ∧ w'.calls = [] ∧ ancestors "a/b/c".toList = []) :=
  mkdir_recursive_spec
    { outcome := fun k _ => if k = 0 then MkdirRes.EXISTS else MkdirRes.CREATED,
      calls := [], made := [] }
    "a/b/c".toList (by decide)

end Ribs
